import Mathlib

/-!
# Verification of the commence-worker discovery pipeline

A shallow embedding of the discovery pipeline of the `commence-worker`
repository, together with proofs about its behaviour.

The embedding works on `List Char` (wrapped into `String` at the interface)
so that every function is executable and every concrete claim can be settled
by evaluation.  JavaScript semantics is modelled explicitly:

* regular-expression character classes (`\w`, `\s`, word boundaries) are
  modelled by decidable character predicates and explicit scanners;
* `Map` objects are modelled by association lists with JavaScript `set`/`get`
  semantics (`set` overwrites the entry for an existing key);
* the platform WHATWG URL parser used by `new URL(...)` is modelled for
  hierarchical `scheme://[userinfo@]host[:port][/path][?query][#fragment]`
  references (with the special schemes' tolerance for missing or repeated
  slashes) and for authority-less references such as `mailto:x@y`; the
  remaining shapes are modelled as parse failures (which `normalizeUrl`
  maps to the identity, as the source does);
* the `Math.floor(total * 0.7)` estimation is computed in a model of IEEE
  binary64 arithmetic (`jsFloorMulMant`), since the double nearest `0.7`
  lies below `7/10` and the floored product differs from `⌊7t/10⌋` at some
  totals (the first is `t = 90`, where JavaScript yields `62`, not `63`);
* the Supabase-backed store is modelled as explicit state (lists of rows)
  threaded through the save functions.
-/

namespace Scraper

/-! ## Character classes of the JavaScript regular expressions -/

/-- The JS regex class `\w`: ASCII letters, digits and underscore. -/
def isWordChar (c : Char) : Bool :=
  (('a' ≤ c && c ≤ 'z') || ('A' ≤ c && c ≤ 'Z') || ('0' ≤ c && c ≤ '9') || c = '_')

/-- The JS regex class `\s` restricted to the ASCII whitespace characters
(space, tab, line feed, carriage return, vertical tab, form feed). -/
def isSpaceChar (c : Char) : Bool :=
  c = ' ' || c = '\t' || c = '\n' || c = '\r' || c = '\x0b' || c = '\x0c'

/-- ASCII decimal digit. -/
def isDigitChar (c : Char) : Bool := '0' ≤ c && c ≤ '9'

/-- ASCII lowercasing of a single character, as `String.prototype.toLowerCase`
acts on ASCII input.  Written as an explicit table so that proofs can reason
by cases on the 26 uppercase letters. -/
def toLowerChar : Char → Char
  | 'A' => 'a' | 'B' => 'b' | 'C' => 'c' | 'D' => 'd' | 'E' => 'e' | 'F' => 'f'
  | 'G' => 'g' | 'H' => 'h' | 'I' => 'i' | 'J' => 'j' | 'K' => 'k' | 'L' => 'l'
  | 'M' => 'm' | 'N' => 'n' | 'O' => 'o' | 'P' => 'p' | 'Q' => 'q' | 'R' => 'r'
  | 'S' => 's' | 'T' => 't' | 'U' => 'u' | 'V' => 'v' | 'W' => 'w' | 'X' => 'x'
  | 'Y' => 'y' | 'Z' => 'z'
  | c => c

/-- JS `String.prototype.trim` on a character list (ASCII whitespace). -/
def trimChars (l : List Char) : List Char :=
  ((l.dropWhile isSpaceChar).reverse.dropWhile isSpaceChar).reverse

/-! ## `extractCanonicalName` (src/unnamed/part_001, `canonical-name.ts`)

The source:
```
let canonical = title.replace(/\b20\d{2}\b/g, '').trim();
canonical = canonical.replace(/[^\w\s]/g, ' ');
canonical = canonical.replace(/\s+/g, ' ').trim().toLowerCase();
```
-/

/-- Whether `prev` is a word boundary on the left: start of string or a
non-word character. -/
def leftBoundary : Option Char → Bool
  | none => true
  | some p => !(isWordChar p)

/-- Whether a word boundary holds on the right of a match: end of string or a
non-word character coming next. -/
def rightBoundary : List Char → Bool
  | [] => true
  | e :: _ => !(isWordChar e)

/-- Global replacement of `\b20\d{2}\b` by the empty string, scanning left to
right exactly as the JS regex engine does: `prev` is the character preceding
the current position in the original string (used for the `\b` test). -/
def removeYearsAux (prev : Option Char) : List Char → List Char
  | '2' :: '0' :: c :: d :: rest =>
    if isDigitChar c && isDigitChar d && leftBoundary prev && rightBoundary rest then
      removeYearsAux (some d) rest
    else
      '2' :: removeYearsAux (some '2') ('0' :: c :: d :: rest)
  | a :: l => a :: removeYearsAux (some a) l
  | [] => []

/-- `title.replace(/\b20\d{2}\b/g, '')`. -/
def removeYears (l : List Char) : List Char := removeYearsAux none l

/-- `replace(/[^\w\s]/g, ' ')`: every character that is neither a word
character nor whitespace becomes a space. -/
def punctToSpace (l : List Char) : List Char :=
  l.map (fun c => if !(isWordChar c) && !(isSpaceChar c) then ' ' else c)

/-- `replace(/\s+/g, ' ')` scanner: `inRun` records whether the previous
character belonged to a whitespace run already replaced by one space. -/
def collapseSpacesAux (inRun : Bool) : List Char → List Char
  | [] => []
  | c :: rest =>
    if isSpaceChar c then
      if inRun then collapseSpacesAux true rest
      else ' ' :: collapseSpacesAux true rest
    else c :: collapseSpacesAux false rest

/-- `replace(/\s+/g, ' ')`: collapse each maximal whitespace run to one space. -/
def collapseSpaces (l : List Char) : List Char := collapseSpacesAux false l

/-- `extractCanonicalName` on character lists. -/
def extractCanonicalNameL (l : List Char) : List Char :=
  if l = [] then []
  else
    let c1 := trimChars (removeYears l)
    let c2 := punctToSpace c1
    (trimChars (collapseSpaces c2)).map toLowerChar

/-- `extractCanonicalName(title)` from `canonical-name.ts`: remove word-bounded
`20XX` year tokens, trim, replace characters outside `\w`/`\s` by spaces,
collapse whitespace runs, trim, lowercase.  The empty string is falsy in JS,
so it is returned unchanged. -/
def extractCanonicalName (s : String) : String := ⟨extractCanonicalNameL s.data⟩

/-! ## `normalizeUrl` (src/utils/scraping/url-normalizer.ts)

The source parses with the platform's `new URL(url)` and returns
`protocol + "//" + hostname + pathname`; on a parse failure it returns the
input unchanged, and a falsy (empty) input yields `''`.
-/

/-- Characters that terminate the authority component of a URL. -/
def isAuthorityEnd (c : Char) : Bool := c = '/' || c = '?' || c = '#'

/-- First character of a URL scheme: an ASCII letter. -/
def isSchemeStartChar (c : Char) : Bool :=
  ('a' ≤ c && c ≤ 'z') || ('A' ≤ c && c ≤ 'Z')

/-- Subsequent characters of a URL scheme. -/
def isSchemeChar (c : Char) : Bool :=
  isSchemeStartChar c || isDigitChar c || c = '+' || c = '-' || c = '.'

/-- The WHATWG "special" schemes, whose pathname is never empty (a URL with an
empty path serialises its pathname as `/`). -/
def isSpecialScheme (s : List Char) : Bool :=
  s = "http".data || s = "https".data || s = "ws".data || s = "wss".data ||
    s = "ftp".data || s = "file".data

/-- The suffix of `l` after its last `'@'` (all of `l` if none): the hostname
part of an authority lies after the userinfo terminated by the last `'@'`. -/
def afterLastAt (l : List Char) : List Char :=
  (l.reverse.takeWhile (fun c => c ≠ '@')).reverse

/-- An optional `:port` suffix is well-formed when absent or all digits. -/
def portOk : List Char → Bool
  | [] => true
  | ':' :: ds => ds.all isDigitChar
  | _ :: _ => false

/-- The scheme and the remainder after its `':'`, when the input starts with a
well-formed scheme. -/
def splitScheme (l : List Char) : Option (List Char × List Char) :=
  match l.takeWhile isSchemeChar, l.dropWhile isSchemeChar with
  | c :: s, ':' :: rest => if isSchemeStartChar c then some (c :: s, rest) else none
  | _, _ => none

/-- A parsed hierarchical URL as observed through the accessors the source
uses: `protocol` (without the `':'`), `hostname` and `pathname`. -/
structure UrlParts where
  scheme : List Char
  host : List Char
  path : List Char
deriving DecidableEq, Repr

/-- The authority-and-path part of the WHATWG parser, applied to the text
after the scheme's slashes: the authority runs to the first `/`, `?` or `#`;
the hostname is what follows the last `'@'` and precedes an optional all-digit
`:port`; an empty host is a parse error; the pathname excludes query and
fragment, and for the special schemes an empty path serialises as `/`. -/
def parseAuthority (scheme' rest2 : List Char) : Option UrlParts :=
  let authority := rest2.takeWhile (fun c => !(isAuthorityEnd c))
  let after := rest2.dropWhile (fun c => !(isAuthorityEnd c))
  let hostport := afterLastAt authority
  let host := hostport.takeWhile (fun c => c ≠ ':')
  let port := hostport.dropWhile (fun c => c ≠ ':')
  if host = [] then none
  else if !(portOk port) then none
  else
    let path0 := after.takeWhile (fun c => c ≠ '?' && c ≠ '#')
    let path := if path0 = [] && isSpecialScheme scheme' then ['/'] else path0
    some ⟨scheme', host.map toLowerChar, path⟩

/-- Model of the platform WHATWG URL parser (`new URL(url)`), exposing the
three accessors the source reads (case-folded `protocol` and `hostname`,
`pathname`).  A special scheme (`http`, `https`, …) tolerates missing or
extra slashes before its authority (`https:example.com` parses); a
non-special scheme followed by `//` has an authority, and otherwise the
remainder is an authority-less (opaque or rootless) path with an empty
hostname — `mailto:x@y` yields hostname `""` and pathname `"x@y"`.  Not
modelled (parse failure, which `normalizeUrl` maps to the identity):
backslash-as-slash treatment, percent-encoding, IDN hostnames, bracketed
IPv6 hosts, non-digit ports and empty hierarchical hosts. -/
def parseUrl (l : List Char) : Option UrlParts :=
  match splitScheme l with
  | none => none
  | some (scheme, rest) =>
    let scheme' := scheme.map toLowerChar
    if isSpecialScheme scheme' then
      parseAuthority scheme' (rest.dropWhile (fun c => c = '/'))
    else
      match rest with
      | '/' :: '/' :: rest2 => parseAuthority scheme' rest2
      | _ => some ⟨scheme', [], rest.takeWhile (fun c => c ≠ '?' && c ≠ '#')⟩

/-- `` `${parsed.protocol}//${parsed.hostname}${parsed.pathname}` ``. -/
def renderUrl (p : UrlParts) : List Char :=
  p.scheme ++ ':' :: '/' :: '/' :: (p.host ++ p.path)

/-- `normalizeUrl` on character lists. -/
def normalizeUrlL (l : List Char) : List Char :=
  if l = [] then []
  else
    match parseUrl l with
    | some p => renderUrl p
    | none => l

/-- `normalizeUrl(url)` from `url-normalizer.ts`: empty input yields `''`;
otherwise parse and return protocol + hostname + pathname, or the input
unchanged when parsing fails. -/
def normalizeUrl (s : String) : String := ⟨normalizeUrlL s.data⟩

/-- The shape invariant every successful parse result satisfies; it is what
makes `renderUrl` re-parse to the same parts. -/
structure GoodParts (p : UrlParts) : Prop where
  scheme_ne : p.scheme ≠ []
  scheme_start : ∀ c s, p.scheme = c :: s → isSchemeStartChar c = true
  scheme_chars : ∀ c ∈ p.scheme, isSchemeChar c = true
  scheme_lower : p.scheme.map toLowerChar = p.scheme
  host_ne : p.host ≠ []
  host_lower : p.host.map toLowerChar = p.host
  host_chars : ∀ c ∈ p.host, isAuthorityEnd c = false ∧ c ≠ ':' ∧ c ≠ '@'
  path_chars : ∀ c ∈ p.path, c ≠ '?' ∧ c ≠ '#'
  path_empty : p.path = [] → isSpecialScheme p.scheme = false
  path_head : ∀ c rest, p.path = c :: rest → c = '/'

/-! ## JavaScript `Map` objects

`Map.prototype.set` overwrites the value stored under an existing key (the
entry keeps its position); `get` returns the stored value; `has` tests
presence.  Modelled as an association list.
-/

/-- A JavaScript `Map` as an association list of key-value pairs. -/
def JsMap (α β : Type) : Type := List (α × β)

instance (α β : Type) : Membership (α × β) (JsMap α β) := inferInstanceAs (Membership _ (List _))

/-- `Map.prototype.get`. -/
def mapGet {α β : Type} [DecidableEq α] (m : JsMap α β) (k : α) : Option β :=
  (List.find? (fun e => e.1 = k) m).map (fun e => e.2)

/-- `Map.prototype.set`: overwrite the entry of an existing key, else append. -/
def mapSet {α β : Type} [DecidableEq α] (m : JsMap α β) (k : α) (v : β) : JsMap α β :=
  match m with
  | [] => [(k, v)]
  | e :: rest => if e.1 = k then (k, v) :: rest else e :: mapSet rest k v

/-- `Map.prototype.has`. -/
def mapHas {α β : Type} [DecidableEq α] (m : JsMap α β) (k : α) : Bool :=
  (mapGet m k).isSome

/-! ## Role index (src/utils/scraping/existing-role-checker.ts) -/

/-- An existing role as indexed by `loadExistingRoles`. -/
structure ExistingRole where
  id : String
  program_id : String
  role_id : String
  url : Option String
  canonical_name : Option String
  is_open : Option Bool
  title : Option String
deriving DecidableEq, Repr

/-- A dismissed role-discovery draft as indexed by `loadDismissedDrafts`. -/
structure DismissedDraft where
  url : String
  canonical_name : Option String
deriving DecidableEq, Repr

/-- JS truthiness of a nullable string: non-null and non-empty. -/
def jsTruthy : Option String → Bool
  | none => false
  | some s => s ≠ ""

/-- A `program_roles` row as returned by the `loadExistingRoles` query, with
the joined `programs.name` and `roles.label` columns. -/
structure RoleRow where
  id : String
  program_id : String
  role_id : String
  url : Option String
  canonical_name : Option String
  is_open : Option Bool
  title : Option String
  aliasName : Option String
  program_name : Option String
  role_label : Option String
deriving DecidableEq, Repr

/-- The effective title computed inside the `loadExistingRoles` loop: the
row's own title when truthy, else a title synthesised from the programme name
and the alias (when truthy) or the role label, provided the programme name is
non-empty. -/
def effectiveTitle (row : RoleRow) : Option String :=
  if jsTruthy row.title then row.title
  else
    let programName := row.program_name.getD ""
    if programName ≠ "" then
      if jsTruthy row.aliasName then some (programName ++ " - " ++ row.aliasName.getD "")
      else some (programName ++ " - " ++ row.role_label.getD "")
    else row.title

/-- The effective canonical name computed inside the `loadExistingRoles` loop:
the stored one when truthy, else extracted from the effective title when that
is truthy. -/
def effectiveCanonicalName (row : RoleRow) : Option String :=
  if jsTruthy row.canonical_name then row.canonical_name
  else if jsTruthy (effectiveTitle row) then
    some (extractCanonicalName ((effectiveTitle row).getD ""))
  else row.canonical_name

/-- The `ExistingRole` object built for a row by `loadExistingRoles`. -/
def derivedRole (row : RoleRow) : ExistingRole :=
  ⟨row.id, row.program_id, row.role_id, row.url, effectiveCanonicalName row,
    row.is_open, effectiveTitle row⟩

/-- One iteration of the `loadExistingRoles` indexing loop: index by
normalized URL when the row has a truthy URL, and by effective canonical name
when that is truthy. -/
def indexStep (acc : JsMap String ExistingRole × JsMap String ExistingRole)
    (row : RoleRow) : JsMap String ExistingRole × JsMap String ExistingRole :=
  let er := derivedRole row
  let byUrl :=
    if jsTruthy row.url then mapSet acc.1 (normalizeUrl (row.url.getD "")) er else acc.1
  let byName :=
    match effectiveCanonicalName row with
    | some n => if n ≠ "" then mapSet acc.2 n er else acc.2
    | none => acc.2
  (byUrl, byName)

/-- The pure indexing core of `loadExistingRoles`: fold the fetched rows into
the `byUrl` and `byName` maps. -/
def buildRoleIndexes (rows : List RoleRow) :
    JsMap String ExistingRole × JsMap String ExistingRole :=
  rows.foldl indexStep ([], [])

/-- The normalized-URL key under which a row is indexed, when any. -/
def urlKeyOf (row : RoleRow) : Option String :=
  if jsTruthy row.url then some (normalizeUrl (row.url.getD "")) else none

/-- The canonical-name key under which a row is indexed, when any. -/
def nameKeyOf (row : RoleRow) : Option String :=
  match effectiveCanonicalName row with
  | some n => if n ≠ "" then some n else none
  | none => none

/-- The last element of `l` satisfying `p`, scanning left to right. -/
def lastMatch {α : Type} (p : α → Bool) (l : List α) : Option α :=
  l.foldl (fun acc r => if p r then some r else acc) none

/-! ## Action resolver: `classifyRoleAction` -/

/-- The four role actions. -/
inductive RoleAction where
  | SKIP
  | NEW_ROLE
  | URL_CHANGED
  | REOPENING
deriving DecidableEq, Repr

/-- The object returned by `classifyRoleAction`; absent JS fields are `none`. -/
structure ClassifyResult where
  action : RoleAction
  existingRoleId : Option String
  urlChanged : Option Bool
deriving DecidableEq, Repr

/-- `dismissedByUrl && dismissedByUrl.has(key)` for the optional parameter. -/
def optionalHas (m : Option (JsMap String DismissedDraft)) (k : String) : Bool :=
  match m with
  | some m => mapHas m k
  | none => false

/-- `classifyRoleAction` from `existing-role-checker.ts`: dismissal lookups
first (by normalized URL, then by canonical name), then the existing-role URL
index (open → SKIP; closed → REOPENING, urlChanged=false; unknown →
URL_CHANGED), then the existing-role name index (closed → REOPENING,
urlChanged=true; else URL_CHANGED), else NEW_ROLE. -/
def classifyRoleAction (roleUrl roleTitle : String)
    (existingByUrl existingByName : JsMap String ExistingRole)
    (dismissedByUrl dismissedByName : Option (JsMap String DismissedDraft)) :
    ClassifyResult :=
  let normalizedUrl := normalizeUrl roleUrl
  let canonicalName := extractCanonicalName roleTitle
  if optionalHas dismissedByUrl normalizedUrl then
    ⟨RoleAction.SKIP, none, none⟩
  else if optionalHas dismissedByName canonicalName then
    ⟨RoleAction.SKIP, none, none⟩
  else
    match mapGet existingByUrl normalizedUrl with
    | some r =>
      if r.is_open = some true then ⟨RoleAction.SKIP, some r.id, none⟩
      else if r.is_open = some false then ⟨RoleAction.REOPENING, some r.id, some false⟩
      else ⟨RoleAction.URL_CHANGED, some r.id, none⟩
    | none =>
      match mapGet existingByName canonicalName with
      | some r =>
        if r.is_open = some false then ⟨RoleAction.REOPENING, some r.id, some true⟩
        else ⟨RoleAction.URL_CHANGED, some r.id, none⟩
      | none => ⟨RoleAction.NEW_ROLE, none, none⟩

/-! ## Shared data of the persistence layer and the suggester -/

/-- JS `String.prototype.toLowerCase` on ASCII input. -/
def toLowerString (s : String) : String := ⟨s.data.map toLowerChar⟩

/-- A scraped role record, restricted to the fields the verified logic reads
(`title` for logging/preview, `program_type` for the suggestion fallback). -/
structure ScrapedRole where
  title : String
  program_type : Option String
deriving DecidableEq, Repr

/-- A programme suggestion as described by `ProgrammeSuggestionSchema` in the
programme-suggester module. -/
structure ProgrammeSuggestion where
  matched_program_id : Option String
  matched_program_name : Option String
  suggested_name : Option String
  normalized_name : Option String
  program_type : Option String
  confidence : String
  reasoning : String
  is_new : Bool
deriving DecidableEq, Repr

/-! ## `normalizeProgrammeName` and the `suggestProgramme` output correction
(src/unnamed/part_002, `programme-suggester.ts`)

Only the deterministic post-processing of the boundary's structured output is
modelled; the `generateObject` call itself is the external LLM boundary.  The
current year (`new Date().getFullYear()`) enters as an explicit argument.
-/

/-- Whether `pat` is the next text of `l` (plain prefix test). -/
def startsWithLit : List Char → List Char → Bool
  | [], _ => true
  | _ :: _, [] => false
  | p :: ps, c :: cs => p = c && startsWithLit ps cs

/-- JS `String.prototype.includes`: substring test. -/
def containsSubstring (s sub : String) : Bool :=
  go s.data
where
  go : List Char → Bool
    | [] => startsWithLit sub.data []
    | c :: cs => startsWithLit sub.data (c :: cs) || go cs

/-- Global word-bounded replacement of the first matching literal among
`pats` by `rep`, scanning left to right as the JS regex engine runs an
alternation under `/g`; `fuel` bounds the scan (one unit per consumed input
character, so the input length suffices). -/
def replaceWordsFuel (pats : List (List Char)) (rep : List Char) :
    Nat → Option Char → List Char → List Char
  | 0, _, l => l
  | _ + 1, _, [] => []
  | fuel + 1, prev, a :: l =>
    match pats.find? (fun pat =>
        pat ≠ [] && startsWithLit pat (a :: l) && leftBoundary prev &&
          rightBoundary ((a :: l).drop pat.length)) with
    | some pat =>
      rep ++ replaceWordsFuel pats rep fuel (some (pat.getLast?.getD a))
        ((a :: l).drop pat.length)
    | none => a :: replaceWordsFuel pats rep fuel (some a) l

/-- The location literals removed by `normalizeProgrammeName`, in the order of
the regex alternation. -/
def locationLits : List (List Char) :=
  ["london".data, "new york".data, "nyc".data, "birmingham".data,
    "manchester".data, "edinburgh".data, "dublin".data]

/-- `normalizeProgrammeName(name)` from `programme-suggester.ts`: lowercase,
`programme` → `program` (word-bounded), remove `20XX` year tokens, remove the
common location names, punctuation to spaces, collapse whitespace, trim. -/
def normalizeProgrammeName (s : String) : String :=
  let l0 := s.data.map toLowerChar
  let l1 := replaceWordsFuel ["programme".data] "program".data l0.length none l0
  let l2 := removeYears l1
  let l3 := replaceWordsFuel locationLits [] l2.length none l2
  let l4 := punctToSpace l3
  ⟨trimChars (collapseSpaces l4)⟩

/-- Step 1 of the deterministic correction `suggestProgramme` applies to the
boundary's structured output: for a new-programme suggestion with a truthy
`suggested_name`, the `normalized_name` is regenerated with
`normalizeProgrammeName`. -/
def regenNormalizedName (object : ProgrammeSuggestion) : ProgrammeSuggestion :=
  if object.is_new && jsTruthy object.suggested_name then
    { object with
      normalized_name := some (normalizeProgrammeName (object.suggested_name.getD "")) }
  else object

/-- The deterministic correction `suggestProgramme` applies to the boundary's
structured output before returning: after `regenNormalizedName`, a suggestion
with `is_new === false` but a falsy `matched_program_id` is coerced into a
new-programme suggestion (current year prepended to the matched name unless
already present, programme type taken from the scraped role with a
`summer_internship` fallback, matched fields nulled, reasoning annotated).
`currentYear` is `String(new Date().getFullYear())` and `roleProgramType` is
`inputs.scrapedRole.program_type`. -/
def correctSuggestion (object : ProgrammeSuggestion) (currentYear : String)
    (roleProgramType : Option String) : ProgrammeSuggestion :=
  let c1 := regenNormalizedName object
  if !c1.is_new && !(jsTruthy c1.matched_program_id) then
    let matchedName :=
      if jsTruthy c1.matched_program_name then c1.matched_program_name.getD ""
      else "Programme"
    { c1 with
      is_new := true
      suggested_name := some (if containsSubstring matchedName currentYear then matchedName
        else currentYear ++ " " ++ matchedName)
      normalized_name := some (normalizeProgrammeName matchedName)
      program_type := some (if jsTruthy roleProgramType then roleProgramType.getD ""
        else "summer_internship")
      matched_program_id := none
      matched_program_name := none
      reasoning := c1.reasoning ++
        " [Auto-corrected from expected programme hint to new programme]" }
  else c1

/-! ## Usage resolution at the three LLM call sites
(src/unnamed/part_003 `extractor.ts`, src/unnamed/part_002
`programme-suggester.ts`)

Each call site reads the boundary's usage object through a chain of
null-coalescing fallbacks.  `extractRoleFromHtml` and `classifyJobLinks`
additionally estimate a breakdown from a bare total (80/20 and 70/30
respectively); `suggestProgramme` has no such estimation step.

The literals `0.8` and `0.7` denote the nearest IEEE binary64 doubles,
`0.8 + 0.4/2^53` and `0.7 - 0.4/2^53`.  Because the double for `0.8` lies
*above* `4/5`, `Math.floor(t * 0.8)` agrees with `t * 8 / 10` in `Nat`
throughout the modelled range (totals below `2^49`), and is modelled so.
The double for `0.7` lies *below* `7/10`, and at some totals the rounded
product falls just under the rational floor: `Math.floor(90 * 0.7)` is
`62`, not `63`.  `Math.floor(t * 0.7)` is therefore modelled exactly, by
`jsFloorMulMant mant07 t`: the exact product `t * mant07 / 2^53` is rounded
to 53 significant bits (nearest, ties to even) and then floored.
-/

/-- Round-to-nearest, ties-to-even integer division: the IEEE rounding of
`a / b` to an integer. -/
def roundEvenDiv (a b : Nat) : Nat :=
  if 2 * (a % b) < b then a / b
  else if b < 2 * (a % b) then a / b + 1
  else if a / b % 2 = 0 then a / b else a / b + 1

/-- Fuelled bit length: `bitLenAux f n` is the bit length of `n` whenever
`n < 2 ^ f` (structural recursion, so the kernel can evaluate it). -/
def bitLenAux : Nat → Nat → Nat
  | 0, _ => 0
  | f + 1, n => if n = 0 then 0 else bitLenAux f (n / 2) + 1

/-- Bit length of a natural number below `2 ^ 128`. -/
def bitLen (n : Nat) : Nat := bitLenAux 128 n

/-- The significand of the IEEE binary64 double nearest the literal `0.7`:
the double is `mant07 / 2 ^ 53`, rounded from `0.7 * 2^53 = 6305039478318694.4`. -/
def mant07 : Nat := 6305039478318694

/-- `Math.floor(t * c)` in IEEE binary64 arithmetic, where `c = mant / 2^53`
is a double in `(1/2, 1)` and `t` an exactly represented integer: the exact
product `t * mant / 2^53` is rounded to 53 significant bits (round to
nearest, ties to even), and the floor of the rounded value is taken.  A
product below `2^53` is exactly representable, and being below `1` it floors
to `0`; otherwise the significand is the top 53 bits of the product, rounded. -/
def jsFloorMulMant (mant t : Nat) : Nat :=
  let prod := t * mant
  if prod < 2 ^ 53 then 0
  else
    let shift := bitLen prod - 53
    let n := roundEvenDiv prod (2 ^ shift)
    n / 2 ^ (53 - shift)

/-- The raw usage object of the AI SDK with its three possible spellings of
each field. -/
structure RawUsage where
  promptTokens : Option Nat
  prompt_tokens : Option Nat
  inputTokens : Option Nat
  completionTokens : Option Nat
  completion_tokens : Option Nat
  outputTokens : Option Nat
  totalTokens : Option Nat
  total_tokens : Option Nat
deriving DecidableEq, Repr

/-- Accumulated token usage. -/
structure TokenUsage where
  promptTokens : Nat
  completionTokens : Nat
  totalTokens : Nat
deriving DecidableEq, Repr

/-- `a ?? b ?? c ?? 0`. -/
def resolve3 (a b c : Option Nat) : Nat :=
  ((a.orElse fun _ => b).orElse fun _ => c).getD 0

/-- `usageAny.promptTokens ?? usageAny.prompt_tokens ?? usageAny.inputTokens ?? 0`. -/
def resolvedPrompt (u : RawUsage) : Nat :=
  resolve3 u.promptTokens u.prompt_tokens u.inputTokens

/-- `usageAny.completionTokens ?? usageAny.completion_tokens ?? usageAny.outputTokens ?? 0`. -/
def resolvedCompletion (u : RawUsage) : Nat :=
  resolve3 u.completionTokens u.completion_tokens u.outputTokens

/-- `usageAny.totalTokens ?? usageAny.total_tokens ?? 0`. -/
def resolvedTotal (u : RawUsage) : Nat :=
  (u.totalTokens.orElse fun _ => u.total_tokens).getD 0

/-- The usage recorded by `extractRoleFromHtml`: 80/20 estimate when only a
positive total is reported. -/
def extractRoleUsage (u : RawUsage) : TokenUsage :=
  let p := resolvedPrompt u
  let c := resolvedCompletion u
  let t := resolvedTotal u
  if p = 0 && c = 0 && 0 < t then ⟨t * 8 / 10, t - t * 8 / 10, t⟩ else ⟨p, c, t⟩

/-- The usage recorded by `classifyJobLinks`: 70/30 estimate when only a
positive total is reported, `Math.floor(t * 0.7)` computed in binary64. -/
def classifyLinksUsage (u : RawUsage) : TokenUsage :=
  let p := resolvedPrompt u
  let c := resolvedCompletion u
  let t := resolvedTotal u
  if p = 0 && c = 0 && 0 < t then
    ⟨jsFloorMulMant mant07 t, t - jsFloorMulMant mant07 t, t⟩
  else ⟨p, c, t⟩

/-- The usage recorded by `suggestProgramme`: the resolved fields, with no
estimation step. -/
def suggestProgrammeUsage (u : RawUsage) : TokenUsage :=
  ⟨resolvedPrompt u, resolvedCompletion u, resolvedTotal u⟩

/-! ## Discovery store (src/utils/scraping/save-discoveries.ts)

The Supabase store is modelled as explicit state.  Rows are appended with a
strictly increasing sequence number serving as both `id` and `created_at`,
matching inserts with a monotone clock; the error paths of the client (store
unreachable) are not modelled, so every insert succeeds.
-/

/-- Status of a discovery draft. -/
inductive DraftStatus where
  | pending
  | approved
  | dismissed
deriving DecidableEq, Repr

/-- A `programme_discovery_drafts` row (fields the verified logic touches). -/
structure ProgrammeDraftRow where
  id : Nat
  firm_id : String
  source_url_id : Option String
  suggested_name : String
  normalized_name : String
  program_type : String
  confidence : String
  matched_existing_program_id : Option String
  reasoning : String
  status : DraftStatus
deriving DecidableEq, Repr

/-- A `role_discovery_drafts` row (fields the verified logic touches). -/
structure RoleDraftRow where
  id : Nat
  firm_id : String
  programme_discovery_draft_id : Option Nat
  program_id : Option String
  existing_role_id : Option String
  update_type : Option RoleAction
  scraped_data : ScrapedRole
  url : String
  confidence : String
  status : DraftStatus
  created_at : Nat
deriving DecidableEq, Repr

/-- The store state. -/
structure Db where
  programmeDrafts : List ProgrammeDraftRow
  roleDrafts : List RoleDraftRow
  nextId : Nat
deriving DecidableEq, Repr

/-- `.single()`: the row when the query returned exactly one, else an error
(observed by the caller as null data). -/
def singleRow {α : Type} : List α → Option α
  | [x] => some x
  | _ => none

/-- `.order('created_at', descending).limit(1).maybeSingle()`: the matching
row with the greatest `created_at` (ties keep the earlier row; the model's
clock never produces ties). -/
def mostRecent (rows : List RoleDraftRow) : Option RoleDraftRow :=
  rows.foldl
    (fun acc r =>
      match acc with
      | none => some r
      | some a => if a.created_at < r.created_at then some r else some a)
    none

/-- Argument object of `saveProgrammeDiscoveryDraft`. -/
structure ProgrammeDraftInput where
  firmId : String
  sourceUrlId : String
  suggestedName : String
  normalizedName : String
  programType : String
  confidence : String
  matchedProgramId : Option String
  rolesPreview : List ScrapedRole
  reasoning : String
deriving DecidableEq, Repr

/-- Does a programme-draft row match the pending-draft lookup of
`saveProgrammeDiscoveryDraft` for `(firmId, normalizedName)`? -/
def progPendingMatch (firmId normalizedName : String) (r : ProgrammeDraftRow) : Bool :=
  r.firm_id = firmId && r.normalized_name = normalizedName && r.status = DraftStatus.pending

/-- `saveProgrammeDiscoveryDraft`: return the pending draft for
`(firm, normalized name)` when the single-row lookup finds one, else insert a
new pending draft.  Returns the updated store and the draft id. -/
def saveProgrammeDiscoveryDraft (db : Db) (data : ProgrammeDraftInput) :
    Db × Option Nat :=
  match singleRow (db.programmeDrafts.filter (progPendingMatch data.firmId data.normalizedName)) with
  | some r => (db, some r.id)
  | none =>
    let row : ProgrammeDraftRow :=
      { id := db.nextId
        firm_id := data.firmId
        source_url_id := if data.sourceUrlId = "manual-test" then none else some data.sourceUrlId
        suggested_name := data.suggestedName
        normalized_name := data.normalizedName
        program_type := data.programType
        confidence := data.confidence
        matched_existing_program_id := data.matchedProgramId
        reasoning := data.reasoning
        status := DraftStatus.pending }
    ({ db with programmeDrafts := db.programmeDrafts ++ [row], nextId := db.nextId + 1 },
      some row.id)

/-- Argument object of `saveRoleDiscoveryDraft`. -/
structure RoleDraftInput where
  firmId : String
  scrapedRole : ScrapedRole
  programmeSuggestion : ProgrammeSuggestion
  url : String
  updateType : RoleAction
  existingRoleId : Option String
  programmeDraftId : Option Nat
deriving DecidableEq, Repr

/-- Does a role-draft row match the `(firm_id, existing_role_id)` lookup? -/
def roleKeyMatchById (firmId : String) (rid : Option String) (r : RoleDraftRow) : Bool :=
  r.firm_id = firmId && r.existing_role_id = rid

/-- Does a role-draft row match the `(firm_id, url)` lookup? -/
def roleKeyMatchByUrl (firmId url : String) (r : RoleDraftRow) : Bool :=
  r.firm_id = firmId && r.url = url

/-- The existing-draft lookup of `saveRoleDiscoveryDraft`: by
`existing_role_id` when one was passed (truthy), else by `url`. -/
def roleDraftLookup (db : Db) (data : RoleDraftInput) : Option RoleDraftRow :=
  if jsTruthy data.existingRoleId then
    mostRecent (db.roleDrafts.filter (roleKeyMatchById data.firmId data.existingRoleId))
  else
    mostRecent (db.roleDrafts.filter (roleKeyMatchByUrl data.firmId data.url))

/-- The row inserted by `saveRoleDiscoveryDraft` (its `draftData`). -/
def newRoleDraftRow (db : Db) (data : RoleDraftInput) : RoleDraftRow :=
  { id := db.nextId
    firm_id := data.firmId
    programme_discovery_draft_id := data.programmeDraftId
    program_id := data.programmeSuggestion.matched_program_id
    existing_role_id := data.existingRoleId
    update_type := if data.updateType = RoleAction.SKIP then none else some data.updateType
    scraped_data := data.scrapedRole
    url := data.url
    confidence := data.programmeSuggestion.confidence
    status := DraftStatus.pending
    created_at := db.nextId }

/-- `saveRoleDiscoveryDraft`: look up the most recent draft for the key; if
it is pending, return it unchanged; otherwise (decided or absent) insert a
new pending draft.  Returns the updated store and the draft id. -/
def saveRoleDiscoveryDraft (db : Db) (data : RoleDraftInput) : Db × Option Nat :=
  match roleDraftLookup db data with
  | some d =>
    if d.status = DraftStatus.pending then (db, some d.id)
    else
      let row := newRoleDraftRow db data
      ({ db with roleDrafts := db.roleDrafts ++ [row], nextId := db.nextId + 1 }, some row.id)
  | none =>
    let row := newRoleDraftRow db data
    ({ db with roleDrafts := db.roleDrafts ++ [row], nextId := db.nextId + 1 }, some row.id)

/-- Argument object of `saveDiscovery`. -/
structure SaveDiscoveryInput where
  firmId : String
  sourceUrlId : String
  scrapedRole : ScrapedRole
  programmeSuggestion : ProgrammeSuggestion
  url : String
  updateType : RoleAction
  existingRoleId : Option String
deriving DecidableEq, Repr

/-- `saveDiscovery`: `SKIP` writes nothing and returns null; otherwise a
programme draft is saved first when the suggestion is a truthy new programme,
then the role draft.  Returns the updated store and, on success, the optional
programme draft id and the role draft id. -/
def saveDiscovery (db : Db) (data : SaveDiscoveryInput) :
    Db × Option (Option Nat × Nat) :=
  if data.updateType = RoleAction.SKIP then (db, none)
  else
    let s := data.programmeSuggestion
    let step1 : Db × Option Nat :=
      if s.is_new && jsTruthy s.suggested_name then
        saveProgrammeDiscoveryDraft db
          { firmId := data.firmId
            sourceUrlId := data.sourceUrlId
            suggestedName := s.suggested_name.getD ""
            normalizedName := if jsTruthy s.normalized_name then s.normalized_name.getD ""
              else toLowerString (s.suggested_name.getD "")
            programType := if jsTruthy s.program_type then s.program_type.getD ""
              else "summer_internship"
            confidence := s.confidence
            matchedProgramId := none
            rolesPreview := [data.scrapedRole]
            reasoning := s.reasoning }
      else (db, none)
    let db1 := step1.1
    let progId := step1.2
    match saveRoleDiscoveryDraft db1
      { firmId := data.firmId
        scrapedRole := data.scrapedRole
        programmeSuggestion := s
        url := data.url
        updateType := data.updateType
        existingRoleId := data.existingRoleId
        programmeDraftId := progId } with
    | (db2, some rid) => (db2, some (progId, rid))
    | (db2, none) => (db2, none)

/-! ## Run metrics (src/utils/scraping/exploration-runner.ts `runExplorationJob`
and src/unnamed/part_002 `list-phase.ts` `runListPhase`)

Only the deterministic counting core is modelled: the page rendering and the
LLM classification are external, so a processed page enters the model as the
list of classified job links `(url, title)` it produced.
-/

/-- A collected candidate link. -/
structure CollectedLink where
  url : String
  title : String
  action : RoleAction
  existingRoleId : Option String
  urlChanged : Option Bool
deriving DecidableEq, Repr

/-- Mutable state of the exploration LIST handler. -/
structure ExplorationState where
  rolesFound : Nat
  rolesSkipped : Nat
  seenUrls : List String
  collectedLinks : List CollectedLink
deriving DecidableEq, Repr

/-- The per-run classification of one page's job links against the indexes
(the body of the `classifiedLinks` map). -/
def classifyPageLinks (byUrl byName : JsMap String ExistingRole)
    (dUrl dName : JsMap String DismissedDraft) (jobLinks : List (String × String)) :
    List CollectedLink :=
  jobLinks.map fun jl =>
    let r := classifyRoleAction jl.1 jl.2 byUrl byName (some dUrl) (some dName)
    ⟨jl.1, jl.2, r.action, r.existingRoleId, r.urlChanged⟩

/-- The per-run seen-URL deduplication loop shared by both runners. -/
def collectLinks (st : List String × List CollectedLink) (toCollect : List CollectedLink) :
    List String × List CollectedLink :=
  toCollect.foldl
    (fun st link =>
      let normalized := normalizeUrl link.url
      if normalized ∈ st.1 then st
      else (normalized :: st.1, st.2 ++ [link]))
    st

/-- One page of the `runExplorationJob` LIST handler: `rolesFound` is
incremented once per link inside the classification map and then again by the
whole page's link count; `rolesSkipped` grows by the SKIP count; NEW, then
URL_CHANGED, then REOPENING links are collected behind the seen-set. -/
def explorationProcessPage (byUrl byName : JsMap String ExistingRole)
    (dUrl dName : JsMap String DismissedDraft) (st : ExplorationState)
    (jobLinks : List (String × String)) : ExplorationState :=
  let classifiedLinks := classifyPageLinks byUrl byName dUrl dName jobLinks
  let rolesFound := st.rolesFound + classifiedLinks.length
  let toSkip := classifiedLinks.filter (fun l => l.action = RoleAction.SKIP)
  let newRoles := classifiedLinks.filter (fun l => l.action = RoleAction.NEW_ROLE)
  let urlChanges := classifiedLinks.filter (fun l => l.action = RoleAction.URL_CHANGED)
  let reopenings := classifiedLinks.filter (fun l => l.action = RoleAction.REOPENING)
  let rolesFound := rolesFound + classifiedLinks.length
  let rolesSkipped := st.rolesSkipped + toSkip.length
  let toCollect := newRoles ++ urlChanges ++ reopenings
  let collected := collectLinks (st.seenUrls, st.collectedLinks) toCollect
  ⟨rolesFound, rolesSkipped, collected.1, collected.2⟩

/-- The metrics record assembled by `runExplorationJob`. -/
structure ExplorationMetrics where
  roles_found : Nat
  roles_skipped : Nat
  roles_new : Nat
  roles_url_changed : Nat
  roles_reopened : Nat
deriving DecidableEq, Repr

/-- The metric finalisation of `checkAndStartDetailPhase` with no `maxRoles`
limit: the NEW/URL_CHANGED/REOPENING counts over the collected links. -/
def explorationFinalize (st : ExplorationState) : ExplorationMetrics :=
  { roles_found := st.rolesFound
    roles_skipped := st.rolesSkipped
    roles_new := (st.collectedLinks.filter (fun l => l.action = RoleAction.NEW_ROLE)).length
    roles_url_changed :=
      (st.collectedLinks.filter (fun l => l.action = RoleAction.URL_CHANGED)).length
    roles_reopened :=
      (st.collectedLinks.filter (fun l => l.action = RoleAction.REOPENING)).length }

/-- Counters of `runListPhase` in `list-phase.ts`, which increments
`rolesFound` once per classified link and collects the non-SKIP links in page
order behind the seen-set. -/
def listPhaseProcessPage (byUrl byName : JsMap String ExistingRole)
    (dUrl dName : JsMap String DismissedDraft) (st : ExplorationState)
    (jobLinks : List (String × String)) : ExplorationState :=
  let classifiedLinks := classifyPageLinks byUrl byName dUrl dName jobLinks
  let rolesFound := st.rolesFound + classifiedLinks.length
  let toCollect := classifiedLinks.filter (fun l => l.action ≠ RoleAction.SKIP)
  let rolesSkipped :=
    st.rolesSkipped + (classifiedLinks.filter (fun l => l.action = RoleAction.SKIP)).length
  let collected := collectLinks (st.seenUrls, st.collectedLinks) toCollect
  ⟨rolesFound, rolesSkipped, collected.1, collected.2⟩

/-- The DETAIL phase persistence for one collected link: `saveDiscovery` with
the link's action and matched role id and the suggestion the boundary
produced for it. -/
def detailSave (firmId sourceUrlId : String) (db : Db) (link : CollectedLink)
    (scraped : ScrapedRole) (suggestion : ProgrammeSuggestion) : Db :=
  (saveDiscovery db
    { firmId := firmId
      sourceUrlId := sourceUrlId
      scrapedRole := scraped
      programmeSuggestion := suggestion
      url := link.url
      updateType := link.action
      existingRoleId := link.existingRoleId }).1

/-! # Theorems -/

/-! ## Character and list facts -/

/-- `toLowerChar` either fixes its argument or maps an uppercase letter into
the lowercase range. -/
theorem toLowerChar_cases (c : Char) :
    toLowerChar c = c ∨
      ('a' ≤ toLowerChar c ∧ toLowerChar c ≤ 'z' ∧ 'A' ≤ c ∧ c ≤ 'Z') := by
  unfold toLowerChar
  split <;> subst_vars <;> first | (left; rfl) | (right; decide)

/-- A character outside the uppercase range is fixed by `toLowerChar`. -/
theorem toLowerChar_fix (c : Char) (h : ¬('A' ≤ c ∧ c ≤ 'Z')) : toLowerChar c = c := by
  unfold toLowerChar
  split <;> subst_vars <;> first | rfl | (exact absurd (by decide) h)

/-- Lowercasing is idempotent on characters. -/
theorem toLowerChar_idem (c : Char) : toLowerChar (toLowerChar c) = toLowerChar c := by
  rcases toLowerChar_cases c with h | ⟨h1, _, _, _⟩
  · rw [h, h]
  · apply toLowerChar_fix
    rintro ⟨_, hb⟩
    exact absurd (le_trans h1 hb) (by decide)

/-- A character in the lowercase range is none of the URL delimiters. -/
theorem lower_not_delim (x : Char) (h1 : 'a' ≤ x) (h2 : x ≤ 'z') :
    isAuthorityEnd x = false ∧ x ≠ ':' ∧ x ≠ '@' ∧ x ≠ '?' ∧ x ≠ '#' := by
  have hne : ∀ y : Char, y < 'a' → x ≠ y := by
    intro y hy he
    subst he
    exact absurd h1 (not_le.mpr hy)
  have ha : isAuthorityEnd x = false := by
    unfold isAuthorityEnd
    simp only [Bool.or_eq_false_iff, decide_eq_false_iff_not]
    exact ⟨⟨hne '/' (by decide), hne '?' (by decide)⟩, hne '#' (by decide)⟩
  exact ⟨ha, hne ':' (by decide), hne '@' (by decide), hne '?' (by decide),
    hne '#' (by decide)⟩

/-- Lowercasing preserves scheme characters. -/
theorem isSchemeChar_toLower (c : Char) (h : isSchemeChar c = true) :
    isSchemeChar (toLowerChar c) = true := by
  rcases toLowerChar_cases c with he | ⟨h1, h2, _, _⟩
  · rw [he]; exact h
  · simp [isSchemeChar, isSchemeStartChar, h1, h2]

/-- Lowercasing preserves scheme start characters. -/
theorem isSchemeStartChar_toLower (c : Char) (h : isSchemeStartChar c = true) :
    isSchemeStartChar (toLowerChar c) = true := by
  rcases toLowerChar_cases c with he | ⟨h1, h2, _, _⟩
  · rw [he]; exact h
  · simp only [isSchemeStartChar, Bool.or_eq_true]
    left
    simp [h1, h2]

/-- Lowercasing preserves freedom from the URL delimiters. -/
theorem toLower_not_delim (c : Char)
    (h : isAuthorityEnd c = false ∧ c ≠ ':' ∧ c ≠ '@') :
    isAuthorityEnd (toLowerChar c) = false ∧ toLowerChar c ≠ ':' ∧ toLowerChar c ≠ '@' := by
  rcases toLowerChar_cases c with he | ⟨h1, h2, _, _⟩
  · rw [he]; exact h
  · rcases lower_not_delim (toLowerChar c) h1 h2 with ⟨a, b, d, _, _⟩
    exact ⟨a, b, d⟩

/-- Members of a `takeWhile` are members satisfying the predicate. -/
theorem mem_takeWhile_and {α : Type} (q : α → Bool) (l : List α) (c : α)
    (h : c ∈ l.takeWhile q) : c ∈ l ∧ q c = true := by
  induction l with
  | nil => simp [List.takeWhile] at h
  | cons x xs ih =>
    rw [List.takeWhile_cons] at h
    by_cases hq : q x
    · rw [if_pos hq] at h
      rcases List.mem_cons.mp h with h1 | h2
      · rw [h1]; exact ⟨List.mem_cons_self x xs, hq⟩
      · rcases ih h2 with ⟨m, hqc⟩
        exact ⟨List.mem_cons_of_mem x m, hqc⟩
    · rw [if_neg hq] at h
      simp at h

/-- `takeWhile` walks through a prefix that satisfies the predicate. -/
theorem takeWhile_append_all {α : Type} (q : α → Bool) (xs ys : List α)
    (h : ∀ c ∈ xs, q c = true) :
    (xs ++ ys).takeWhile q = xs ++ ys.takeWhile q := by
  induction xs with
  | nil => simp
  | cons x l ih =>
    have hx : q x = true := h x (List.mem_cons_self x l)
    simp only [List.cons_append, List.takeWhile_cons, hx, if_true]
    rw [ih (fun c hc => h c (List.mem_cons_of_mem x hc))]

/-- `dropWhile` consumes a prefix that satisfies the predicate. -/
theorem dropWhile_append_all {α : Type} (q : α → Bool) (xs ys : List α)
    (h : ∀ c ∈ xs, q c = true) :
    (xs ++ ys).dropWhile q = ys.dropWhile q := by
  induction xs with
  | nil => simp
  | cons x l ih =>
    have hx : q x = true := h x (List.mem_cons_self x l)
    simp only [List.cons_append, List.dropWhile_cons, hx, if_true]
    exact ih (fun c hc => h c (List.mem_cons_of_mem x hc))

/-- `takeWhile` keeps a list all of whose members satisfy the predicate. -/
theorem takeWhile_all {α : Type} (q : α → Bool) (xs : List α)
    (h : ∀ c ∈ xs, q c = true) : xs.takeWhile q = xs := by
  have := takeWhile_append_all q xs [] h
  simpa using this

/-- `dropWhile` erases a list all of whose members satisfy the predicate. -/
theorem dropWhile_all {α : Type} (q : α → Bool) (xs : List α)
    (h : ∀ c ∈ xs, q c = true) : xs.dropWhile q = [] := by
  have := dropWhile_append_all q xs [] h
  simpa using this

/-- The head of a `dropWhile` residue violates the predicate. -/
theorem dropWhile_head_not {α : Type} (q : α → Bool) (l : List α) :
    l.dropWhile q = [] ∨
      ∃ c cs, l.dropWhile q = c :: cs ∧ q c = false := by
  induction l with
  | nil => left; rfl
  | cons x xs ih =>
    rw [List.dropWhile_cons]
    by_cases hq : q x
    · rw [if_pos hq]; exact ih
    · rw [if_neg hq]
      right
      exact ⟨x, xs, rfl, by simp [hq]⟩

/-- `afterLastAt` is the identity on `'@'`-free lists. -/
theorem afterLastAt_eq_self (l : List Char) (h : ∀ c ∈ l, c ≠ '@') :
    afterLastAt l = l := by
  unfold afterLastAt
  rw [takeWhile_all]
  · exact l.reverse_reverse
  · intro c hc
    simpa using h c (List.mem_reverse.mp hc)

/-- Members of `afterLastAt` are non-`'@'` members of the input. -/
theorem mem_afterLastAt (l : List Char) (c : Char) (h : c ∈ afterLastAt l) :
    c ∈ l ∧ c ≠ '@' := by
  unfold afterLastAt at h
  rcases mem_takeWhile_and _ _ _ (List.mem_reverse.mp h) with ⟨hm, hq⟩
  exact ⟨List.mem_reverse.mp hm, by simpa using hq⟩

/-- Double lowercasing of a list is single lowercasing. -/
theorem map_toLower_idem (l : List Char) :
    (l.map toLowerChar).map toLowerChar = l.map toLowerChar := by
  induction l with
  | nil => rfl
  | cons c cs ih => simp [toLowerChar_idem, ih]

/-- A successful `splitScheme` yields a letter-headed, scheme-charactered
scheme. -/
theorem splitScheme_facts (l scheme0 rest : List Char)
    (h : splitScheme l = some (scheme0, rest)) :
    (∃ c s, scheme0 = c :: s ∧ isSchemeStartChar c = true) ∧
    (∀ c ∈ scheme0, isSchemeChar c = true) := by
  unfold splitScheme at h
  split at h
  · rename_i c s rest' heq1 heq2
    split at h
    · rename_i hstart
      simp only [Option.some.injEq, Prod.mk.injEq] at h
      obtain ⟨h1, _⟩ := h
      subst h1
      refine ⟨⟨c, s, rfl, hstart⟩, ?_⟩
      intro x hx
      have hx2 : x ∈ l.takeWhile isSchemeChar := by rw [heq1]; exact hx
      exact (mem_takeWhile_and _ _ _ hx2).2
    · exact absurd h (by simp)
  · exact absurd h (by simp)

/-- The parts assembled by `parseAuthority` are well shaped, given a
nonempty, lowercase-stable scheme of scheme characters. -/
theorem parseAuthority_good (scheme' rest2 : List Char) (p : UrlParts)
    (hp : parseAuthority scheme' rest2 = some p)
    (hstart : ∃ c s, scheme' = c :: s ∧ isSchemeStartChar c = true)
    (hchars : ∀ c ∈ scheme', isSchemeChar c = true)
    (hlow : scheme'.map toLowerChar = scheme') :
    GoodParts p := by
  unfold parseAuthority at hp
  simp only [] at hp
  split at hp
  · exact absurd hp (by simp)
  split at hp
  · exact absurd hp (by simp)
  rename_i hhost hport
  simp only [Option.some.injEq] at hp
  subst hp
  obtain ⟨c0, s0, hcs, hc0⟩ := hstart
  constructor
  case scheme_ne =>
    show scheme' ≠ []
    rw [hcs]
    simp
  case scheme_start =>
    intro c' s' heq
    have heq2 : scheme' = c' :: s' := heq
    rw [hcs] at heq2
    injection heq2 with h1 _
    rw [← h1]
    exact hc0
  case scheme_chars => exact hchars
  case scheme_lower => exact hlow
  case host_ne =>
    intro hmap
    exact hhost (List.map_eq_nil_iff.mp hmap)
  case host_lower => exact map_toLower_idem _
  case host_chars =>
    intro x hx
    rcases List.mem_map.mp hx with ⟨y, hy, hxy⟩
    rcases mem_takeWhile_and _ _ _ hy with ⟨hy2, hcolon⟩
    rcases mem_afterLastAt _ _ hy2 with ⟨hy3, hat⟩
    rcases mem_takeWhile_and _ _ _ hy3 with ⟨_, hauth⟩
    rw [← hxy]
    exact toLower_not_delim y
      ⟨by simpa using hauth, by simpa using hcolon, hat⟩
  case path_chars =>
    intro x hx
    split at hx
    · rcases List.mem_singleton.mp hx with rfl
      exact ⟨by decide, by decide⟩
    · rcases mem_takeWhile_and _ _ _ hx with ⟨_, hpred⟩
      rcases Bool.and_eq_true_iff.mp hpred with ⟨hq, hh⟩
      exact ⟨of_decide_eq_true hq, of_decide_eq_true hh⟩
  case path_empty =>
    intro hpe
    show isSpecialScheme scheme' = false
    split at hpe
    · exact absurd hpe (by simp)
    · rename_i hcond
      dsimp only at hpe
      rw [hpe] at hcond
      simpa using hcond
  case path_head =>
    intro ch r heq
    split at heq
    · injection heq with h1 h2
      exact h1.symm
    · rcases dropWhile_head_not (fun c => !isAuthorityEnd c) rest2 with hnil | ⟨c1, cs, hcons, hfail⟩
      · rw [hnil] at heq
        exact absurd heq (by simp [List.takeWhile])
      · rw [hcons, List.takeWhile_cons] at heq
        by_cases hpred : (decide (c1 ≠ '?') && decide (c1 ≠ '#')) = true
        · rw [if_pos hpred] at heq
          injection heq with h1 h2
          subst h1
          have hae : isAuthorityEnd c1 = true := by simpa using hfail
          rcases Bool.and_eq_true_iff.mp hpred with ⟨hq, hh⟩
          have hq2 := of_decide_eq_true hq
          have hh2 := of_decide_eq_true hh
          unfold isAuthorityEnd at hae
          rcases Bool.or_eq_true_iff.mp hae with hor | hhash
          · rcases Bool.or_eq_true_iff.mp hor with hslash | hques
            · exact of_decide_eq_true hslash
            · exact absurd (of_decide_eq_true hques) hq2
          · exact absurd (of_decide_eq_true hhash) hh2
        · rw [if_neg hpred] at heq
          exact absurd heq (by simp)

/-- Every successful parse with a nonempty hostname yields well-shaped parts
(the authority-less parses are exactly those with an empty hostname). -/
theorem parseUrl_good (l : List Char) (p : UrlParts) (hp : parseUrl l = some p)
    (hh : p.host ≠ []) : GoodParts p := by
  unfold parseUrl at hp
  split at hp
  · exact absurd hp (by simp)
  · rename_i sr scheme0 rest hsplit
    simp only [] at hp
    rcases splitScheme_facts l scheme0 _ hsplit with ⟨hstart, hchars⟩
    obtain ⟨c0, s0, hcs, hc0⟩ := hstart
    have hstart' : ∃ c s, List.map toLowerChar scheme0 = c :: s ∧
        isSchemeStartChar c = true := by
      refine ⟨toLowerChar c0, s0.map toLowerChar, ?_, isSchemeStartChar_toLower c0 hc0⟩
      rw [hcs]
      rfl
    have hchars' : ∀ c ∈ List.map toLowerChar scheme0, isSchemeChar c = true := by
      intro x hx
      rcases List.mem_map.mp hx with ⟨y, hy, hxy⟩
      rw [← hxy]
      exact isSchemeChar_toLower y (hchars y hy)
    have hlow' : (List.map toLowerChar scheme0).map toLowerChar =
        List.map toLowerChar scheme0 := map_toLower_idem scheme0
    split at hp
    · exact parseAuthority_good _ _ p hp hstart' hchars' hlow'
    · split at hp
      · exact parseAuthority_good _ _ p hp hstart' hchars' hlow'
      · simp only [Option.some.injEq] at hp
        subst hp
        exact absurd rfl hh

/-- Rendered good parts re-parse to themselves. -/
theorem parseUrl_render (p : UrlParts) (hg : GoodParts p) :
    parseUrl (renderUrl p) = some p := by
  obtain ⟨S, H, P⟩ := p
  have sne := hg.scheme_ne
  have sstart := hg.scheme_start
  have schars := hg.scheme_chars
  have slower := hg.scheme_lower
  have hne := hg.host_ne
  have hlower := hg.host_lower
  have hchars := hg.host_chars
  have pchars := hg.path_chars
  have pempty := hg.path_empty
  have phead := hg.path_head
  dsimp only at sne sstart schars slower hne hlower hchars pchars pempty phead
  have hSex : ∃ c s, S = c :: s ∧ isSchemeStartChar c = true := by
    cases hS : S with
    | nil => exact absurd hS sne
    | cons c s => exact ⟨c, s, rfl, sstart c s hS⟩
  obtain ⟨c0, s0, hS, hc0⟩ := hSex
  have ht : List.takeWhile isSchemeChar (S ++ ':' :: '/' :: '/' :: (H ++ P)) = S := by
    rw [takeWhile_append_all isSchemeChar S _ schars, List.takeWhile_cons,
      if_neg (by decide : ¬(isSchemeChar ':' = true)), List.append_nil]
  have hd : List.dropWhile isSchemeChar (S ++ ':' :: '/' :: '/' :: (H ++ P)) =
      ':' :: '/' :: '/' :: (H ++ P) := by
    rw [dropWhile_append_all isSchemeChar S _ schars, List.dropWhile_cons,
      if_neg (by decide : ¬(isSchemeChar ':' = true))]
  have hsplit : splitScheme (S ++ ':' :: '/' :: '/' :: (H ++ P)) =
      some (S, '/' :: '/' :: (H ++ P)) := by
    unfold splitScheme
    rw [ht, hd, hS]
    simp [hc0]
  have hHdelim : ∀ c ∈ H, (!isAuthorityEnd c) = true := fun c hc => by
    simp [(hchars c hc).1]
  have hauth : List.takeWhile (fun c => !isAuthorityEnd c) (H ++ P) = H := by
    rw [takeWhile_append_all _ H P hHdelim]
    cases hP : P with
    | nil => simp
    | cons cp rest =>
      have hcp : cp = '/' := phead cp rest hP
      subst hcp
      rw [List.takeWhile_cons, if_neg (by decide), List.append_nil]
  have hafter : List.dropWhile (fun c => !isAuthorityEnd c) (H ++ P) = P := by
    rw [dropWhile_append_all _ H P hHdelim]
    cases hP : P with
    | nil => rfl
    | cons cp rest =>
      have hcp : cp = '/' := phead cp rest hP
      subst hcp
      rw [List.dropWhile_cons, if_neg (by decide)]
  have hhostport : afterLastAt H = H :=
    afterLastAt_eq_self H (fun c hc => (hchars c hc).2.2)
  have hhost2 : List.takeWhile (fun c => decide (c ≠ ':')) H = H :=
    takeWhile_all _ H (fun c hc => by simp [(hchars c hc).2.1])
  have hport : List.dropWhile (fun c => decide (c ≠ ':')) H = [] :=
    dropWhile_all _ H (fun c hc => by simp [(hchars c hc).2.1])
  have hpath0 : List.takeWhile (fun c => decide (c ≠ '?') && decide (c ≠ '#')) P = P :=
    takeWhile_all _ P (fun c hc => by
      rcases pchars c hc with ⟨h1, h2⟩
      simp [h1, h2])
  have hPA : parseAuthority S (H ++ P) = some ⟨S, H, P⟩ := by
    unfold parseAuthority
    simp only [hauth, hafter, hhostport, hhost2, hport]
    rw [if_neg hne]
    rw [if_neg (by decide : ¬((!portOk []) = true))]
    simp only [hlower, hpath0]
    cases hP : P with
    | nil =>
      have hspec := pempty hP
      simp [hspec]
    | cons cp rest => simp
  have hdrop : List.dropWhile (fun c => decide (c = '/')) ('/' :: '/' :: (H ++ P)) =
      H ++ P := by
    obtain ⟨ch, hs, hHcons⟩ : ∃ ch hs, H = ch :: hs := by
      cases H with
      | nil => exact absurd rfl hne
      | cons a b => exact ⟨a, b, rfl⟩
    have hch : isAuthorityEnd ch = false :=
      (hchars ch (by rw [hHcons]; exact List.mem_cons_self ch hs)).1
    have hch2 : ¬(ch = '/') := by
      intro hcon
      rw [hcon] at hch
      exact absurd hch (by decide)
    rw [hHcons]
    simp [List.dropWhile_cons, hch2]
  show parseUrl (S ++ ':' :: '/' :: '/' :: (H ++ P)) = some ⟨S, H, P⟩
  unfold parseUrl
  rw [hsplit]
  simp only [slower]
  by_cases hspec : isSpecialScheme S = true
  · rw [if_pos hspec, hdrop]
    exact hPA
  · rw [if_neg hspec]
    exact hPA

/-- Parse failure leaves `normalizeUrlL` as the identity. -/
theorem normalizeUrlL_of_parse_fail (l : List Char) (h : parseUrl l = none) :
    normalizeUrlL l = l := by
  unfold normalizeUrlL
  by_cases h0 : l = []
  · rw [if_pos h0, h0]
  · rw [if_neg h0, h]

/-- A rendered URL is never the empty string. -/
theorem renderUrl_ne_nil (p : UrlParts) : renderUrl p ≠ [] := by
  unfold renderUrl
  intro hcon
  exact absurd (List.append_eq_nil.mp hcon).2 (by simp)

/-- `normalizeUrlL` of a successfully parsed input is the render of its
parts. -/
theorem normalizeUrlL_of_parse (l : List Char) (p : UrlParts)
    (hp : parseUrl l = some p) : normalizeUrlL l = renderUrl p := by
  have h0 : l ≠ [] := by
    intro hcon
    rw [hcon, show (parseUrl [] : Option UrlParts) = none from rfl] at hp
    cases hp
  unfold normalizeUrlL
  rw [if_neg h0, hp]

/-- Idempotence of `normalizeUrlL` on inputs parsed with a nonempty hostname
(the hierarchical parses).  An authority-less parse (empty hostname) is
re-serialised as `scheme://path`, whose re-parse reads the path as an
authority, so idempotence can fail there. -/
theorem normalizeUrlL_idem_hier (l : List Char) (p : UrlParts)
    (hp : parseUrl l = some p) (hh : p.host ≠ []) :
    normalizeUrlL (normalizeUrlL l) = normalizeUrlL l := by
  have h1 := normalizeUrlL_of_parse l p hp
  have hg := parseUrl_good l p hp hh
  have hr := parseUrl_render p hg
  rw [h1]
  unfold normalizeUrlL
  rw [if_neg (renderUrl_ne_nil p), hr]

/-- **C1.** For a candidate with no dismissed-entry match, `classifyRoleAction`
decides as follows: a normalized-URL match on an existing role yields `SKIP`
when that role's `is_open === true`, `REOPENING` with `urlChanged=false` when
`is_open === false`, and `URL_CHANGED` when `is_open` is null; otherwise a
canonical-name match yields `REOPENING` with `urlChanged=true` when
`is_open === false` and `URL_CHANGED` otherwise; with no match in either
index the result is `NEW_ROLE`.  The URL branch is decided before the name
branch: its outcome is independent of the name index. -/
theorem classifyRoleAction_existing_cases
    (roleUrl roleTitle : String)
    (byUrl byName : JsMap String ExistingRole)
    (dUrl dName : Option (JsMap String DismissedDraft))
    (hu : optionalHas dUrl (normalizeUrl roleUrl) = false)
    (hn : optionalHas dName (extractCanonicalName roleTitle) = false) :
    (∀ r, mapGet byUrl (normalizeUrl roleUrl) = some r →
      (r.is_open = some true →
        classifyRoleAction roleUrl roleTitle byUrl byName dUrl dName =
          ⟨RoleAction.SKIP, some r.id, none⟩) ∧
      (r.is_open = some false →
        classifyRoleAction roleUrl roleTitle byUrl byName dUrl dName =
          ⟨RoleAction.REOPENING, some r.id, some false⟩) ∧
      (r.is_open = none →
        classifyRoleAction roleUrl roleTitle byUrl byName dUrl dName =
          ⟨RoleAction.URL_CHANGED, some r.id, none⟩)) ∧
    (mapGet byUrl (normalizeUrl roleUrl) = none →
      ∀ r, mapGet byName (extractCanonicalName roleTitle) = some r →
        (r.is_open = some false →
          classifyRoleAction roleUrl roleTitle byUrl byName dUrl dName =
            ⟨RoleAction.REOPENING, some r.id, some true⟩) ∧
        (r.is_open ≠ some false →
          classifyRoleAction roleUrl roleTitle byUrl byName dUrl dName =
            ⟨RoleAction.URL_CHANGED, some r.id, none⟩)) ∧
    (mapGet byUrl (normalizeUrl roleUrl) = none →
      mapGet byName (extractCanonicalName roleTitle) = none →
      classifyRoleAction roleUrl roleTitle byUrl byName dUrl dName =
        ⟨RoleAction.NEW_ROLE, none, none⟩) := by
  refine ⟨fun r hr => ⟨fun h1 => ?_, fun h2 => ?_, fun h3 => ?_⟩,
    fun hno r hr => ⟨fun h4 => ?_, fun h5 => ?_⟩, fun hno hnm => ?_⟩
  · simp [classifyRoleAction, hu, hn, hr, h1]
  · simp [classifyRoleAction, hu, hn, hr, h2]
  · simp [classifyRoleAction, hu, hn, hr, h3]
  · simp [classifyRoleAction, hu, hn, hno, hr, h4]
  · simp [classifyRoleAction, hu, hn, hno, hr, h5]
  · simp [classifyRoleAction, hu, hn, hno, hnm]

/-- Witness for C1 at a concrete input: a candidate whose tracking-tagged URL
normalizes onto an existing open role is skipped with that role's id. -/
theorem classifyRoleAction_existing_cases_witness :
    classifyRoleAction "https://x.com/a?utm=1" "2026 Summer Analyst"
      [("https://x.com/a",
        ⟨"r1", "p1", "ro1", some "https://x.com/a", some "summer analyst",
          some true, some "Summer Analyst"⟩)]
      [] (some []) (some []) = ⟨RoleAction.SKIP, some "r1", none⟩ :=
  ((classifyRoleAction_existing_cases "https://x.com/a?utm=1" "2026 Summer Analyst"
      [("https://x.com/a",
        ⟨"r1", "p1", "ro1", some "https://x.com/a", some "summer analyst",
          some true, some "Summer Analyst"⟩)]
      [] (some []) (some []) (by decide) (by decide)).1
    ⟨"r1", "p1", "ro1", some "https://x.com/a", some "summer analyst",
      some true, some "Summer Analyst"⟩ (by decide)).1 rfl

/-- **C2.** A candidate whose normalized URL is in the dismissed-by-URL index
or whose canonical name is in the dismissed-by-name index is classified
`SKIP` with no `existingRoleId`, whatever the existing-role indexes hold. -/
theorem classifyRoleAction_dismissed_skip
    (roleUrl roleTitle : String)
    (byUrl byName : JsMap String ExistingRole)
    (dUrl dName : Option (JsMap String DismissedDraft))
    (h : optionalHas dUrl (normalizeUrl roleUrl) = true ∨
         optionalHas dName (extractCanonicalName roleTitle) = true) :
    classifyRoleAction roleUrl roleTitle byUrl byName dUrl dName =
      ⟨RoleAction.SKIP, none, none⟩ := by
  rcases h with h | h
  · simp [classifyRoleAction, h]
  · by_cases hu : optionalHas dUrl (normalizeUrl roleUrl) = true
    · simp [classifyRoleAction, hu]
    · simp [classifyRoleAction, Bool.of_not_eq_true hu, h]

/-- Witness for C2 at a concrete input: a dismissed URL beats an existing
open-role match under the same key. -/
theorem classifyRoleAction_dismissed_skip_witness :
    classifyRoleAction "https://x.com/a" "2026 Summer Analyst"
      [("https://x.com/a",
        ⟨"r1", "p1", "ro1", some "https://x.com/a", some "summer analyst",
          some true, some "Summer Analyst"⟩)]
      [] (some [("https://x.com/a", ⟨"https://x.com/a", none⟩)]) (some []) =
      ⟨RoleAction.SKIP, none, none⟩ :=
  classifyRoleAction_dismissed_skip "https://x.com/a" "2026 Summer Analyst"
    [("https://x.com/a",
      ⟨"r1", "p1", "ro1", some "https://x.com/a", some "summer analyst",
        some true, some "Summer Analyst"⟩)]
    [] (some [("https://x.com/a", ⟨"https://x.com/a", none⟩)]) (some [])
    (Or.inl (by decide))

/-- `get` after `set` on the written key. -/
theorem mapGet_mapSet_self {α β : Type} [DecidableEq α] (m : JsMap α β) (k : α) (v : β) :
    mapGet (mapSet m k v) k = some v := by
  induction m with
  | nil => simp [mapSet, mapGet, List.find?]
  | cons e rest ih =>
    by_cases h : e.1 = k
    · simp [mapSet, h, mapGet, List.find?]
    · simpa [mapSet, h, mapGet, List.find?] using ih

/-- `get` after `set` on a different key. -/
theorem mapGet_mapSet_ne {α β : Type} [DecidableEq α] (m : JsMap α β) (k k' : α) (v : β)
    (h : k' ≠ k) : mapGet (mapSet m k' v) k = mapGet m k := by
  induction m with
  | nil => simp [mapSet, mapGet, List.find?, h]
  | cons e rest ih =>
    by_cases he : e.1 = k'
    · simp [mapSet, he, mapGet, List.find?, h, he ▸ h]
    · by_cases hek : e.1 = k
      · simp [mapSet, he, mapGet, List.find?, hek, Ne.symm h]
      · simpa [mapSet, he, mapGet, List.find?, hek] using ih

/-- A fold that keeps the last element satisfying nothing-or-`p` restarted
from an arbitrary accumulator equals the restart-from-`none` fold when the
latter finds an element, else the accumulator. -/
theorem foldl_if_last {α : Type} (p : α → Bool) (a : Option α) (l : List α) :
    l.foldl (fun acc r => if p r then some r else acc) a =
      match l.foldl (fun acc r => if p r then some r else acc) none with
      | some r => some r
      | none => a := by
  induction l generalizing a with
  | nil => rfl
  | cons x l ih =>
    simp only [List.foldl_cons]
    rw [ih (if p x then some x else a), ih (if p x then some x else none)]
    cases h : l.foldl (fun acc r => if p r then some r else acc) none <;>
      by_cases hp : p x <;> simp [hp]

/-- One indexing step, observed through a `byUrl` lookup. -/
theorem mapGet_indexStep_url (acc : JsMap String ExistingRole × JsMap String ExistingRole)
    (row : RoleRow) (k : String) :
    mapGet (indexStep acc row).1 k =
      if urlKeyOf row = some k then some (derivedRole row) else mapGet acc.1 k := by
  by_cases hu : jsTruthy row.url
  · by_cases hk : normalizeUrl (row.url.getD "") = k
    · simp [indexStep, urlKeyOf, hu, hk, mapGet_mapSet_self]
    · simp [indexStep, urlKeyOf, hu, hk, mapGet_mapSet_ne]
  · simp [indexStep, urlKeyOf, hu]

/-- One indexing step, observed through a `byName` lookup. -/
theorem mapGet_indexStep_name (acc : JsMap String ExistingRole × JsMap String ExistingRole)
    (row : RoleRow) (k : String) :
    mapGet (indexStep acc row).2 k =
      if nameKeyOf row = some k then some (derivedRole row) else mapGet acc.2 k := by
  match hc : effectiveCanonicalName row with
  | none => simp [indexStep, nameKeyOf, hc]
  | some n =>
    by_cases hn : n ≠ ""
    · by_cases hk : n = k
      · subst hk
        simp [indexStep, nameKeyOf, hc, hn, mapGet_mapSet_self]
      · simp [indexStep, nameKeyOf, hc, hn, hk, mapGet_mapSet_ne]
    · simp [indexStep, nameKeyOf, hc, hn]

/-- `lastMatch` over a cons: the tail's last match wins, else the head. -/
theorem lastMatch_cons {α : Type} (p : α → Bool) (x : α) (l : List α) :
    lastMatch p (x :: l) =
      match lastMatch p l with
      | some r => some r
      | none => if p x then some x else none := by
  simp only [lastMatch, List.foldl_cons]
  have h0 : (if p x then some x else (none : Option α)) =
      List.foldl (fun acc r => if p r then some r else acc) none [x] := by
    simp
  exact h0 ▸ foldl_if_last p (if p x then some x else none) l

/-- Folding the indexing step from an arbitrary accumulator, `byUrl` view. -/
theorem buildRoleIndexes_aux_url (rows : List RoleRow)
    (acc : JsMap String ExistingRole × JsMap String ExistingRole) (k : String) :
    mapGet (rows.foldl indexStep acc).1 k =
      match lastMatch (fun row => urlKeyOf row = some k) rows with
      | some row => some (derivedRole row)
      | none => mapGet acc.1 k := by
  induction rows generalizing acc with
  | nil => rfl
  | cons row rows ih =>
    simp only [List.foldl_cons]
    rw [ih, lastMatch_cons]
    cases h : lastMatch (fun row => urlKeyOf row = some k) rows with
    | none =>
      by_cases hk : urlKeyOf row = some k <;> simp [hk, mapGet_indexStep_url]
    | some r => rfl

/-- Folding the indexing step from an arbitrary accumulator, `byName` view. -/
theorem buildRoleIndexes_aux_name (rows : List RoleRow)
    (acc : JsMap String ExistingRole × JsMap String ExistingRole) (k : String) :
    mapGet (rows.foldl indexStep acc).2 k =
      match lastMatch (fun row => nameKeyOf row = some k) rows with
      | some row => some (derivedRole row)
      | none => mapGet acc.2 k := by
  induction rows generalizing acc with
  | nil => rfl
  | cons row rows ih =>
    simp only [List.foldl_cons]
    rw [ih, lastMatch_cons]
    cases h : lastMatch (fun row => nameKeyOf row = some k) rows with
    | none =>
      by_cases hk : nameKeyOf row = some k <;> simp [hk, mapGet_indexStep_name]
    | some r => rfl

/-- **C10.** The index build of `loadExistingRoles` is last-write-wins: a
`byUrl` (resp. `byName`) lookup returns the derived role of the **last**
loaded row indexed under that key, shadowing every earlier one; and
`classifyRoleAction` reads the indexes only through these two lookups, so its
result for a candidate is determined solely by the last-indexed roles. -/
theorem buildRoleIndexes_last_write_wins (rows : List RoleRow) (k : String) :
    (mapGet (buildRoleIndexes rows).1 k =
      match lastMatch (fun row => urlKeyOf row = some k) rows with
      | some row => some (derivedRole row)
      | none => none) ∧
    (mapGet (buildRoleIndexes rows).2 k =
      match lastMatch (fun row => nameKeyOf row = some k) rows with
      | some row => some (derivedRole row)
      | none => none) ∧
    (∀ (roleUrl roleTitle : String) (byUrl byUrl2 byName byName2 : JsMap String ExistingRole)
      (dUrl dName : Option (JsMap String DismissedDraft)),
      mapGet byUrl (normalizeUrl roleUrl) = mapGet byUrl2 (normalizeUrl roleUrl) →
      mapGet byName (extractCanonicalName roleTitle) =
        mapGet byName2 (extractCanonicalName roleTitle) →
      classifyRoleAction roleUrl roleTitle byUrl byName dUrl dName =
        classifyRoleAction roleUrl roleTitle byUrl2 byName2 dUrl dName) := by
  refine ⟨?_, ?_, ?_⟩
  · simpa using buildRoleIndexes_aux_url rows ([], []) k
  · simpa using buildRoleIndexes_aux_name rows ([], []) k
  · intro roleUrl roleTitle byUrl byUrl2 byName byName2 dUrl dName h1 h2
    simp only [classifyRoleAction, h1, h2]

/-- Witness for C10 at a concrete input: two rows sharing a normalized URL;
the lookup returns the second, and the classification through the built index
equals the classification through an index holding only the shadowing row. -/
theorem buildRoleIndexes_last_write_wins_witness :
    mapGet
      (buildRoleIndexes
        [⟨"r1", "p1", "ro1", some "https://x.com/a?v=1", none, some true, some "Alpha", none, none, none⟩,
         ⟨"r2", "p2", "ro2", some "https://x.com/a?v=2", none, some false, some "Beta", none, none, none⟩]).1
      "https://x.com/a" =
      some (derivedRole
        ⟨"r2", "p2", "ro2", some "https://x.com/a?v=2", none, some false, some "Beta", none, none, none⟩) ∧
    classifyRoleAction "https://x.com/a" "Gamma"
      (buildRoleIndexes
        [⟨"r1", "p1", "ro1", some "https://x.com/a?v=1", none, some true, some "Alpha", none, none, none⟩,
         ⟨"r2", "p2", "ro2", some "https://x.com/a?v=2", none, some false, some "Beta", none, none, none⟩]).1
      [] none none =
    classifyRoleAction "https://x.com/a" "Gamma"
      [("https://x.com/a",
        derivedRole
          ⟨"r2", "p2", "ro2", some "https://x.com/a?v=2", none, some false, some "Beta", none, none, none⟩)]
      [] none none :=
  ⟨(buildRoleIndexes_last_write_wins
      [⟨"r1", "p1", "ro1", some "https://x.com/a?v=1", none, some true, some "Alpha", none, none, none⟩,
       ⟨"r2", "p2", "ro2", some "https://x.com/a?v=2", none, some false, some "Beta", none, none, none⟩]
      "https://x.com/a").1.trans (by decide),
   (buildRoleIndexes_last_write_wins
      [⟨"r1", "p1", "ro1", some "https://x.com/a?v=1", none, some true, some "Alpha", none, none, none⟩,
       ⟨"r2", "p2", "ro2", some "https://x.com/a?v=2", none, some false, some "Beta", none, none, none⟩]
      "https://x.com/a").2.2 "https://x.com/a" "Gamma" _ _ [] [] none none
      (by decide) (by decide)⟩

/-- **C3.** `saveRoleDiscoveryDraft` keyed by `(firm, existingRoleId)` when an
existing role id is given, else by `(firm, url)`: when the most recent stored
draft for the key is pending it returns that draft's id and inserts nothing;
when it is approved or dismissed a brand-new draft is appended with the
decided rows untouched; when none exists a new draft is inserted.  In
particular two saves for the same `(firm, existingRoleId)` key starting from
a store with no draft for it leave exactly one stored draft for the key. -/
theorem saveRoleDiscoveryDraft_pending_dedup (db : Db) (data : RoleDraftInput) :
    (∀ d, roleDraftLookup db data = some d → d.status = DraftStatus.pending →
      saveRoleDiscoveryDraft db data = (db, some d.id)) ∧
    (∀ d, roleDraftLookup db data = some d → d.status ≠ DraftStatus.pending →
      saveRoleDiscoveryDraft db data =
        ({ db with
            roleDrafts := db.roleDrafts ++ [newRoleDraftRow db data]
            nextId := db.nextId + 1 }, some (newRoleDraftRow db data).id)) ∧
    (roleDraftLookup db data = none →
      saveRoleDiscoveryDraft db data =
        ({ db with
            roleDrafts := db.roleDrafts ++ [newRoleDraftRow db data]
            nextId := db.nextId + 1 }, some (newRoleDraftRow db data).id)) ∧
    (∀ data2 : RoleDraftInput,
      jsTruthy data.existingRoleId = true →
      db.roleDrafts.filter (roleKeyMatchById data.firmId data.existingRoleId) = [] →
      data2.firmId = data.firmId → data2.existingRoleId = data.existingRoleId →
      (saveRoleDiscoveryDraft (saveRoleDiscoveryDraft db data).1 data2 =
        saveRoleDiscoveryDraft db data) ∧
      ((saveRoleDiscoveryDraft (saveRoleDiscoveryDraft db data).1 data2).1.roleDrafts.filter
          (roleKeyMatchById data.firmId data.existingRoleId)).length = 1) := by
  refine ⟨fun d hd hp => ?_, fun d hd hp => ?_, fun hd => ?_, fun data2 ht h0 h2f h2r => ?_⟩
  · simp [saveRoleDiscoveryDraft, hd, hp]
  · simp [saveRoleDiscoveryDraft, hd, hp]
  · simp [saveRoleDiscoveryDraft, hd]
  · have hl : roleDraftLookup db data = none := by
      simp [roleDraftLookup, ht, h0, mostRecent]
    have hrow : roleKeyMatchById data.firmId data.existingRoleId (newRoleDraftRow db data) =
        true := by
      simp [roleKeyMatchById, newRoleDraftRow]
    have hsave1 : saveRoleDiscoveryDraft db data =
        ({ db with
            roleDrafts := db.roleDrafts ++ [newRoleDraftRow db data]
            nextId := db.nextId + 1 }, some (newRoleDraftRow db data).id) := by
      simp [saveRoleDiscoveryDraft, hl]
    have hfilter : (db.roleDrafts ++ [newRoleDraftRow db data]).filter
        (roleKeyMatchById data.firmId data.existingRoleId) = [newRoleDraftRow db data] := by
      rw [List.filter_append, h0]
      simp [List.filter_cons, hrow]
    have hp2 : (newRoleDraftRow db data).status = DraftStatus.pending := rfl
    have hl2 : roleDraftLookup
        ({ db with
            roleDrafts := db.roleDrafts ++ [newRoleDraftRow db data]
            nextId := db.nextId + 1 } : Db) data2 = some (newRoleDraftRow db data) := by
      simp only [roleDraftLookup, h2f, h2r, ht, if_true]
      rw [hfilter]
      rfl
    constructor
    · rw [hsave1]
      simp only [saveRoleDiscoveryDraft, hl2, hp2, if_true]
    · rw [hsave1]
      simp only [saveRoleDiscoveryDraft, hl2, hp2, if_true]
      rw [hfilter]
      rfl

/-- Witness for C3 at a concrete input: a second save for the same
`(firm, existingRoleId)` while the first draft is pending changes nothing and
leaves exactly one matching draft. -/
theorem saveRoleDiscoveryDraft_pending_dedup_witness :
    (saveRoleDiscoveryDraft
        (saveRoleDiscoveryDraft ⟨[], [], 0⟩
          ⟨"f1", ⟨"T", none⟩, ⟨some "pm", none, none, none, none, "high", "r", false⟩,
            "https://x.com/a", RoleAction.REOPENING, some "er1", none⟩).1
        ⟨"f1", ⟨"T", none⟩, ⟨some "pm", none, none, none, none, "high", "r", false⟩,
          "https://x.com/a", RoleAction.REOPENING, some "er1", none⟩ =
      saveRoleDiscoveryDraft ⟨[], [], 0⟩
        ⟨"f1", ⟨"T", none⟩, ⟨some "pm", none, none, none, none, "high", "r", false⟩,
          "https://x.com/a", RoleAction.REOPENING, some "er1", none⟩) ∧
    ((saveRoleDiscoveryDraft
        (saveRoleDiscoveryDraft ⟨[], [], 0⟩
          ⟨"f1", ⟨"T", none⟩, ⟨some "pm", none, none, none, none, "high", "r", false⟩,
            "https://x.com/a", RoleAction.REOPENING, some "er1", none⟩).1
        ⟨"f1", ⟨"T", none⟩, ⟨some "pm", none, none, none, none, "high", "r", false⟩,
          "https://x.com/a", RoleAction.REOPENING, some "er1", none⟩).1.roleDrafts.filter
        (roleKeyMatchById "f1" (some "er1"))).length = 1 :=
  (saveRoleDiscoveryDraft_pending_dedup ⟨[], [], 0⟩
      ⟨"f1", ⟨"T", none⟩, ⟨some "pm", none, none, none, none, "high", "r", false⟩,
        "https://x.com/a", RoleAction.REOPENING, some "er1", none⟩).2.2.2
    ⟨"f1", ⟨"T", none⟩, ⟨some "pm", none, none, none, none, "high", "r", false⟩,
      "https://x.com/a", RoleAction.REOPENING, some "er1", none⟩
    (by decide) (by decide) rfl rfl

/-- **C4.** `saveProgrammeDiscoveryDraft` is idempotent while a draft is
pending: with the (function-preserved) at-most-one-pending invariant, a save
that finds the pending draft for `(firm, normalized name)` returns its id and
inserts nothing; a save that finds none inserts one; the pending count for a
key never grows beyond one; a second save after a first returns the first's
id and leaves the store unchanged. -/
theorem saveProgrammeDiscoveryDraft_pending_idempotent (db : Db) (data : ProgrammeDraftInput) :
    (∀ r, db.programmeDrafts.filter (progPendingMatch data.firmId data.normalizedName) = [r] →
      saveProgrammeDiscoveryDraft db data = (db, some r.id)) ∧
    (db.programmeDrafts.filter (progPendingMatch data.firmId data.normalizedName) = [] →
      (saveProgrammeDiscoveryDraft db data).1.programmeDrafts =
        db.programmeDrafts ++ [((saveProgrammeDiscoveryDraft db data).1.programmeDrafts.getLast?).getD
          ⟨0, "", none, "", "", "", "", none, "", DraftStatus.pending⟩] ∧
      (saveProgrammeDiscoveryDraft db data).2 = some db.nextId) ∧
    ((db.programmeDrafts.filter (progPendingMatch data.firmId data.normalizedName)).length ≤ 1 →
      ((saveProgrammeDiscoveryDraft db data).1.programmeDrafts.filter
        (progPendingMatch data.firmId data.normalizedName)).length ≤ 1) ∧
    (∀ data2 : ProgrammeDraftInput,
      db.programmeDrafts.filter (progPendingMatch data.firmId data.normalizedName) = [] →
      data2.firmId = data.firmId → data2.normalizedName = data.normalizedName →
      saveProgrammeDiscoveryDraft (saveProgrammeDiscoveryDraft db data).1 data2 =
        ((saveProgrammeDiscoveryDraft db data).1, (saveProgrammeDiscoveryDraft db data).2)) := by
  refine ⟨fun r hr => ?_, fun h0 => ?_, fun hle => ?_, fun data2 h0 h2f h2n => ?_⟩
  · simp [saveProgrammeDiscoveryDraft, hr, singleRow]
  · simp [saveProgrammeDiscoveryDraft, h0, singleRow]
  · match hf : db.programmeDrafts.filter (progPendingMatch data.firmId data.normalizedName) with
    | [r] => simp [saveProgrammeDiscoveryDraft, hf, singleRow, hf]
    | [] =>
      simp only [saveProgrammeDiscoveryDraft, hf, singleRow]
      rw [List.filter_append, hf]
      simp [progPendingMatch]
    | r1 :: r2 :: rest =>
      rw [hf] at hle
      simp at hle
  · have hrow : progPendingMatch data.firmId data.normalizedName
        ⟨db.nextId, data.firmId,
          (if data.sourceUrlId = "manual-test" then none else some data.sourceUrlId),
          data.suggestedName, data.normalizedName, data.programType, data.confidence,
          data.matchedProgramId, data.reasoning, DraftStatus.pending⟩ = true := by
      simp [progPendingMatch]
    simp only [saveProgrammeDiscoveryDraft, h0, singleRow]
    rw [h2f, h2n, List.filter_append, h0]
    simp only [List.nil_append, List.filter_cons, List.filter_nil, hrow, if_true]

/-- Witness for C4 at a concrete input: a second programme-draft save for the
same `(firm, normalized name)` returns the first draft's id unchanged. -/
theorem saveProgrammeDiscoveryDraft_pending_idempotent_witness :
    saveProgrammeDiscoveryDraft
      (saveProgrammeDiscoveryDraft ⟨[], [], 0⟩
        ⟨"f1", "s1", "2026 Summer Analyst", "summer analyst", "summer_internship",
          "high", none, [], "why"⟩).1
      ⟨"f1", "s2", "2026 Summer Analyst", "summer analyst", "summer_internship",
        "medium", none, [], "again"⟩ =
    ((saveProgrammeDiscoveryDraft ⟨[], [], 0⟩
        ⟨"f1", "s1", "2026 Summer Analyst", "summer analyst", "summer_internship",
          "high", none, [], "why"⟩).1,
      (saveProgrammeDiscoveryDraft ⟨[], [], 0⟩
        ⟨"f1", "s1", "2026 Summer Analyst", "summer analyst", "summer_internship",
          "high", none, [], "why"⟩).2) :=
  (saveProgrammeDiscoveryDraft_pending_idempotent ⟨[], [], 0⟩
      ⟨"f1", "s1", "2026 Summer Analyst", "summer analyst", "summer_internship",
        "high", none, [], "why"⟩).2.2.2
    ⟨"f1", "s2", "2026 Summer Analyst", "summer analyst", "summer_internship",
      "medium", none, [], "again"⟩
    rfl rfl rfl

/-- **C5.** Every value returned by `suggestProgramme` satisfies: `is_new ===
false` implies a truthy (non-null) `matched_program_id`.  A boundary output
with `is_new=false` and no truthy `matched_program_id` is locally coerced
into a new-programme suggestion — `is_new=true`, `suggested_name` derived
from the matched name and the current year, `matched_program_id` and
`matched_program_name` nulled — rather than surfaced as an error (the
correction is a total function applied before returning; the only throwing
path of `suggestProgramme` is a boundary schema failure, upstream of it). -/
theorem suggestProgramme_match_invariant (object : ProgrammeSuggestion)
    (currentYear : String) (roleProgramType : Option String) :
    ((correctSuggestion object currentYear roleProgramType).is_new = false →
      jsTruthy (correctSuggestion object currentYear roleProgramType).matched_program_id =
        true) ∧
    (object.is_new = false → jsTruthy object.matched_program_id = false →
      (correctSuggestion object currentYear roleProgramType).is_new = true ∧
      (correctSuggestion object currentYear roleProgramType).matched_program_id = none ∧
      (correctSuggestion object currentYear roleProgramType).matched_program_name = none ∧
      (correctSuggestion object currentYear roleProgramType).suggested_name =
        some (if containsSubstring
            (if jsTruthy object.matched_program_name then object.matched_program_name.getD ""
              else "Programme") currentYear then
          (if jsTruthy object.matched_program_name then object.matched_program_name.getD ""
            else "Programme")
        else currentYear ++ " " ++
          (if jsTruthy object.matched_program_name then object.matched_program_name.getD ""
            else "Programme")) ∧
      (correctSuggestion object currentYear roleProgramType).normalized_name =
        some (normalizeProgrammeName
          (if jsTruthy object.matched_program_name then object.matched_program_name.getD ""
            else "Programme")) ∧
      (correctSuggestion object currentYear roleProgramType).program_type =
        some (if jsTruthy roleProgramType then roleProgramType.getD ""
          else "summer_internship")) := by
  have e1 : (regenNormalizedName object).is_new = object.is_new := by
    unfold regenNormalizedName
    split <;> rfl
  have e2 : (regenNormalizedName object).matched_program_id = object.matched_program_id := by
    unfold regenNormalizedName
    split <;> rfl
  have e3 : (regenNormalizedName object).matched_program_name =
      object.matched_program_name := by
    unfold regenNormalizedName
    split <;> rfl
  by_cases h2 : (!(regenNormalizedName object).is_new &&
      !(jsTruthy (regenNormalizedName object).matched_program_id)) = true
  · have heq : correctSuggestion object currentYear roleProgramType =
        { regenNormalizedName object with
          is_new := true
          suggested_name := some (if containsSubstring
              (if jsTruthy (regenNormalizedName object).matched_program_name then
                (regenNormalizedName object).matched_program_name.getD ""
              else "Programme") currentYear then
            (if jsTruthy (regenNormalizedName object).matched_program_name then
              (regenNormalizedName object).matched_program_name.getD ""
            else "Programme")
          else currentYear ++ " " ++
            (if jsTruthy (regenNormalizedName object).matched_program_name then
              (regenNormalizedName object).matched_program_name.getD ""
            else "Programme"))
          normalized_name := some (normalizeProgrammeName
            (if jsTruthy (regenNormalizedName object).matched_program_name then
              (regenNormalizedName object).matched_program_name.getD ""
            else "Programme"))
          program_type := some (if jsTruthy roleProgramType then roleProgramType.getD ""
            else "summer_internship")
          matched_program_id := none
          matched_program_name := none
          reasoning := (regenNormalizedName object).reasoning ++
            " [Auto-corrected from expected programme hint to new programme]" } := by
      simp only [correctSuggestion, h2, if_true]
    constructor
    · intro hfalse
      rw [heq] at hfalse
      exact absurd hfalse (by simp)
    · intro _ _
      rw [heq, e3]
      exact ⟨rfl, rfl, rfl, rfl, rfl, rfl⟩
  · have heq : correctSuggestion object currentYear roleProgramType =
        regenNormalizedName object := by
      simp only [correctSuggestion]
      rw [if_neg]
      simp [h2]
    constructor
    · intro hfalse
      rw [heq, e1] at hfalse
      rw [heq, e2]
      have := Bool.of_not_eq_true h2
      rw [e1, e2, hfalse] at this
      cases hm : jsTruthy object.matched_program_id
      · rw [hm] at this
        simp at this
      · rfl
    · intro hn hm
      exfalso
      apply h2
      rw [e1, e2, hn, hm]
      rfl

/-- Witness for C5 at a concrete input: a boundary output claiming an
existing-programme match with a null id is coerced into a new-programme
suggestion for year 2026. -/
theorem suggestProgramme_match_invariant_witness :
    (correctSuggestion
        ⟨none, some "Summer Analyst", none, none, none, "high", "why", false⟩
        "2026" (some "summer_internship")).is_new = true ∧
    (correctSuggestion
        ⟨none, some "Summer Analyst", none, none, none, "high", "why", false⟩
        "2026" (some "summer_internship")).matched_program_id = none ∧
    (correctSuggestion
        ⟨none, some "Summer Analyst", none, none, none, "high", "why", false⟩
        "2026" (some "summer_internship")).suggested_name = some "2026 Summer Analyst" :=
  have h := (suggestProgramme_match_invariant
      ⟨none, some "Summer Analyst", none, none, none, "high", "why", false⟩
      "2026" (some "summer_internship")).2 rfl rfl
  ⟨h.1, h.2.1, h.2.2.2.1.trans (by decide)⟩

/-- The bit length of zero is zero at any fuel. -/
theorem bitLenAux_zero (f : Nat) : bitLenAux f 0 = 0 := by
  cases f <;> rfl

/-- Correctness of the fuelled bit length, by induction on the fuel. -/
theorem bitLenAux_spec (f n : Nat) (h1 : n ≠ 0) (h2 : n < 2 ^ f) :
    2 ^ (bitLenAux f n - 1) ≤ n ∧ n < 2 ^ bitLenAux f n := by
  induction f generalizing n with
  | zero =>
    simp only [pow_zero] at h2
    omega
  | succ f ih =>
    unfold bitLenAux
    rw [if_neg h1]
    by_cases hz : n / 2 = 0
    · have hn1 : n = 1 := by omega
      subst hn1
      rw [hz, bitLenAux_zero]
      exact ⟨by norm_num, by norm_num⟩
    · have h2' : n / 2 < 2 ^ f := by
        have hstep : n < 2 ^ f * 2 := by
          rw [← pow_succ]
          exact h2
        omega
      obtain ⟨ihl, ihr⟩ := ih (n / 2) hz h2'
      have hL1 : 1 ≤ bitLenAux f (n / 2) := by
        by_contra hcon
        have hz2 : bitLenAux f (n / 2) = 0 := by omega
        rw [hz2] at ihr
        simp only [pow_zero] at ihr
        omega
      constructor
      · have e1 : bitLenAux f (n / 2) + 1 - 1 = (bitLenAux f (n / 2) - 1) + 1 := by omega
        rw [e1, pow_succ]
        omega
      · rw [pow_succ]
        omega

/-- Correctness of `bitLen` below `2 ^ 128`. -/
theorem bitLen_spec (n : Nat) (h1 : n ≠ 0) (h2 : n < 2 ^ 128) :
    2 ^ (bitLen n - 1) ≤ n ∧ n < 2 ^ bitLen n := bitLenAux_spec 128 n h1 h2

/-- `roundEvenDiv` lies between the floor quotient and its successor. -/
theorem roundEvenDiv_bounds (a b : Nat) :
    a / b ≤ roundEvenDiv a b ∧ roundEvenDiv a b ≤ a / b + 1 := by
  unfold roundEvenDiv
  split_ifs <;> omega

/-- The binary64 `Math.floor(t * 0.7)` lies within one of the rational floor
`t * mant07 / 2^53` and is below `t` (for positive totals below `2^49`). -/
theorem jsFloorMulMant_bounds (t : Nat) (ht : 1 ≤ t) (hcap : t < 2 ^ 49) :
    t * mant07 / 2 ^ 53 ≤ jsFloorMulMant mant07 t ∧
    jsFloorMulMant mant07 t ≤ t * mant07 / 2 ^ 53 + 1 ∧
    jsFloorMulMant mant07 t < t := by
  by_cases hsmall : t ≤ 3
  · interval_cases t <;> exact ⟨by decide, by decide, by decide⟩
  · have ht4 : 4 ≤ t := by omega
    have hM : mant07 = 6305039478318694 := rfl
    have h49 : (2:Nat) ^ 49 = 562949953421312 := by norm_num
    have h53 : (2:Nat) ^ 53 = 9007199254740992 := by norm_num
    have h102 : (2:Nat) ^ 102 = 5070602400912917605986812821504 := by norm_num
    have hbig : ¬(t * mant07 < 2 ^ 53) := by
      rw [hM, h53]
      omega
    unfold jsFloorMulMant
    simp only []
    rw [if_neg hbig]
    have hn0 : t * mant07 ≠ 0 := by
      rw [hM]
      omega
    have hlt102 : t * mant07 < 2 ^ 102 := by
      rw [hM, h102]
      omega
    obtain ⟨hbl, hbu⟩ := bitLen_spec (t * mant07) hn0 (by
      have h128 : (2:Nat) ^ 102 ≤ 2 ^ 128 := Nat.pow_le_pow_right (by norm_num) (by norm_num)
      omega)
    have hB54 : 54 ≤ bitLen (t * mant07) := by
      by_contra hcon
      have hble : bitLen (t * mant07) ≤ 53 := by omega
      have hle : (2:Nat) ^ bitLen (t * mant07) ≤ 2 ^ 53 :=
        Nat.pow_le_pow_right (by norm_num) hble
      omega
    have hB102 : bitLen (t * mant07) ≤ 102 := by
      by_contra hcon
      have hge : (2:Nat) ^ 102 ≤ 2 ^ (bitLen (t * mant07) - 1) :=
        Nat.pow_le_pow_right (by norm_num) (by omega)
      omega
    have hsh53 : bitLen (t * mant07) - 53 ≤ 53 := by omega
    have hE : (0:Nat) < 2 ^ (53 - (bitLen (t * mant07) - 53)) :=
      pow_pos (by norm_num) _
    have hDE : 2 ^ (bitLen (t * mant07) - 53) * 2 ^ (53 - (bitLen (t * mant07) - 53)) =
        2 ^ 53 := by
      rw [← pow_add]
      congr 1
      omega
    obtain ⟨hq1, hq2⟩ := roundEvenDiv_bounds (t * mant07) (2 ^ (bitLen (t * mant07) - 53))
    have hlow : t * mant07 / 2 ^ 53 ≤
        roundEvenDiv (t * mant07) (2 ^ (bitLen (t * mant07) - 53)) /
          2 ^ (53 - (bitLen (t * mant07) - 53)) := by
      calc t * mant07 / 2 ^ 53
          = t * mant07 / 2 ^ (bitLen (t * mant07) - 53) /
              2 ^ (53 - (bitLen (t * mant07) - 53)) := by
            rw [Nat.div_div_eq_div_mul, hDE]
        _ ≤ roundEvenDiv (t * mant07) (2 ^ (bitLen (t * mant07) - 53)) /
              2 ^ (53 - (bitLen (t * mant07) - 53)) :=
            Nat.div_le_div_right hq1
    have hup : roundEvenDiv (t * mant07) (2 ^ (bitLen (t * mant07) - 53)) /
        2 ^ (53 - (bitLen (t * mant07) - 53)) ≤ t * mant07 / 2 ^ 53 + 1 := by
      calc roundEvenDiv (t * mant07) (2 ^ (bitLen (t * mant07) - 53)) /
            2 ^ (53 - (bitLen (t * mant07) - 53))
          ≤ (t * mant07 / 2 ^ (bitLen (t * mant07) - 53) + 1) /
              2 ^ (53 - (bitLen (t * mant07) - 53)) := Nat.div_le_div_right hq2
        _ ≤ (t * mant07 / 2 ^ (bitLen (t * mant07) - 53) +
              2 ^ (53 - (bitLen (t * mant07) - 53))) /
              2 ^ (53 - (bitLen (t * mant07) - 53)) := Nat.div_le_div_right (by omega)
        _ = t * mant07 / 2 ^ (bitLen (t * mant07) - 53) /
              2 ^ (53 - (bitLen (t * mant07) - 53)) + 1 := Nat.add_div_right _ hE
        _ = t * mant07 / 2 ^ 53 + 1 := by rw [Nat.div_div_eq_div_mul, hDE]
    refine ⟨hlow, hup, ?_⟩
    have hplt : t * mant07 < (t - 1) * 2 ^ 53 := by
      rw [hM, h53]
      omega
    have hqlt : t * mant07 / 2 ^ 53 < t - 1 := by
      rw [Nat.div_lt_iff_lt_mul (pow_pos (by norm_num : (0:Nat) < 2) 53)]
      exact hplt
    omega

/-- For a total of at least two (below `2^49`), the binary64 70% share is
positive. -/
theorem jsFloorMulMant_pos (t : Nat) (ht : 2 ≤ t) (hcap : t < 2 ^ 49) :
    0 < jsFloorMulMant mant07 t := by
  have hb := (jsFloorMulMant_bounds t (by omega) hcap).1
  have hM : mant07 = 6305039478318694 := rfl
  have h1 : 1 ≤ t * mant07 / 2 ^ 53 := by
    rw [Nat.le_div_iff_mul_le (pow_pos (by norm_num : (0:Nat) < 2) 53)]
    have h53 : (2:Nat) ^ 53 = 9007199254740992 := by norm_num
    rw [hM, h53]
    omega
  omega

/-- **C9 (counterexample to the claim as stated).** The programme-suggestion
call site applies no estimation ratio: a boundary usage carrying only
`totalTokens = 100` is recorded there as zero prompt and completion tokens.
At the link-classification site the split is not the rational 70% floor: a
bare total of `90` yields a prompt share of `62` (binary64
`Math.floor(90 * 0.7)`), not `63 = ⌊90 * 7 / 10⌋`; and a total of `1` yields
a zero (not positive) prompt share. -/
theorem usage_estimation_counterexample :
    suggestProgrammeUsage ⟨none, none, none, none, none, none, some 100, none⟩ =
      ⟨0, 0, 100⟩ ∧
    classifyLinksUsage ⟨none, none, none, none, none, none, some 90, none⟩ =
      ⟨62, 28, 90⟩ ∧
    (62 : Nat) ≠ 90 * 7 / 10 ∧
    classifyLinksUsage ⟨none, none, none, none, none, none, some 1, none⟩ = ⟨0, 1, 1⟩ := by
  decide

/-- **C9 (amended).** When the boundary usage resolves to a zero
prompt/completion breakdown but a positive total (below `2^49`), the
role-extraction site records an 80/20 split (the binary64
`Math.floor(t * 0.8)` agrees with `t * 8 / 10` there) and the
link-classification site the binary64 `Math.floor(t * 0.7)` — within one of
the rational `t * mant07 / 2^53` and sometimes below `⌊7t/10⌋` — with each
split summing to the total, completion positive and prompt positive as soon
as the total is at least 2; the programme-suggestion site records the
resolved values unchanged (zeros). -/
theorem usage_estimation_amended (u : RawUsage)
    (hp : resolvedPrompt u = 0) (hc : resolvedCompletion u = 0)
    (ht : 0 < resolvedTotal u) (hcap : resolvedTotal u < 2 ^ 49) :
    (extractRoleUsage u).promptTokens = resolvedTotal u * 8 / 10 ∧
    (extractRoleUsage u).promptTokens + (extractRoleUsage u).completionTokens =
      resolvedTotal u ∧
    (extractRoleUsage u).totalTokens = resolvedTotal u ∧
    0 < (extractRoleUsage u).completionTokens ∧
    (2 ≤ resolvedTotal u → 0 < (extractRoleUsage u).promptTokens) ∧
    (classifyLinksUsage u).promptTokens = jsFloorMulMant mant07 (resolvedTotal u) ∧
    (classifyLinksUsage u).promptTokens + (classifyLinksUsage u).completionTokens =
      resolvedTotal u ∧
    (classifyLinksUsage u).totalTokens = resolvedTotal u ∧
    0 < (classifyLinksUsage u).completionTokens ∧
    (2 ≤ resolvedTotal u → 0 < (classifyLinksUsage u).promptTokens) ∧
    suggestProgrammeUsage u = ⟨0, 0, resolvedTotal u⟩ := by
  have hcut8 : extractRoleUsage u =
      ⟨resolvedTotal u * 8 / 10, resolvedTotal u - resolvedTotal u * 8 / 10,
        resolvedTotal u⟩ := by
    simp [extractRoleUsage, hp, hc, ht]
  have hcut7 : classifyLinksUsage u =
      ⟨jsFloorMulMant mant07 (resolvedTotal u),
        resolvedTotal u - jsFloorMulMant mant07 (resolvedTotal u),
        resolvedTotal u⟩ := by
    simp [classifyLinksUsage, hp, hc, ht]
  have hsug : suggestProgrammeUsage u = ⟨0, 0, resolvedTotal u⟩ := by
    simp [suggestProgrammeUsage, hp, hc]
  have hjlt : jsFloorMulMant mant07 (resolvedTotal u) < resolvedTotal u :=
    (jsFloorMulMant_bounds (resolvedTotal u) ht hcap).2.2
  refine ⟨?_, ?_, ?_, ?_, ?_, ?_, ?_, ?_, ?_, ?_, ?_⟩ <;>
    simp only [hcut8, hcut7, hsug] <;>
    first
      | rfl
      | omega
      | exact fun h2 => jsFloorMulMant_pos (resolvedTotal u) h2 hcap

/-- Witness for C9 (amended) at a concrete input: a bare total of 100 splits
into 80/20 at the extraction site and stays 0/0/100 at the suggestion site. -/
theorem usage_estimation_amended_witness :
    0 < resolvedTotal ⟨none, none, none, none, none, none, some 100, none⟩ ∧
    resolvedTotal ⟨none, none, none, none, none, none, some 100, none⟩ < 2 ^ 49 ∧
    (extractRoleUsage ⟨none, none, none, none, none, none, some 100, none⟩).promptTokens =
      resolvedTotal ⟨none, none, none, none, none, none, some 100, none⟩ * 8 / 10 :=
  ⟨by decide, by decide,
    (usage_estimation_amended ⟨none, none, none, none, none, none, some 100, none⟩
      (by decide) (by decide) (by decide) (by decide)).1⟩

/-- **C7 (counterexample to the claim as stated).** `normalizeUrl` is not
idempotent on every string: `new URL("mailto:x@y")` parses with hostname `""`
and pathname `"x@y"`, so the first pass rewrites it to `"mailto://x@y"`, and
the second pass reads `x@y` as an authority (userinfo `x`, host `y`) yielding
`"mailto://y"`. -/
theorem normalizeUrl_idempotent_counterexample :
    normalizeUrl "mailto:x@y" = "mailto://x@y" ∧
    normalizeUrl (normalizeUrl "mailto:x@y") = "mailto://y" ∧
    normalizeUrl (normalizeUrl "mailto:x@y") ≠ normalizeUrl "mailto:x@y" := by
  decide

/-- **C7 (amended).** `normalizeUrl` is deterministic and total: on parse
failure it returns the input unchanged instead of throwing (and is trivially
idempotent there), and on every parsed input it returns scheme + `//` +
lowercased hostname + pathname (query and fragment removed) — in particular
`normalizeUrl("https://X.com/a?x=1#y") = "https://x.com/a"`.  Idempotence
holds on every input parsed with a nonempty hostname (the hierarchical
references); it fails only on authority-less references such as
`mailto:x@y`, whose empty hostname makes the output `scheme://path`
re-parse differently. -/
theorem normalizeUrl_idempotent_amended :
    (∀ x : String, parseUrl x.data = none →
      normalizeUrl x = x ∧ normalizeUrl (normalizeUrl x) = normalizeUrl x) ∧
    (∀ (x : String) (p : UrlParts), parseUrl x.data = some p → p.host ≠ [] →
      normalizeUrl (normalizeUrl x) = normalizeUrl x) ∧
    normalizeUrl "https://X.com/a?x=1#y" = "https://x.com/a" ∧
    (∀ (x : String) (p : UrlParts), parseUrl x.data = some p →
      normalizeUrl x = ⟨renderUrl p⟩) := by
  refine ⟨?_, ?_, by decide, ?_⟩
  · intro x h
    have h1 : normalizeUrl x = x := by
      unfold normalizeUrl
      rw [normalizeUrlL_of_parse_fail x.data h]
    exact ⟨h1, by rw [h1, h1]⟩
  · intro x p h hh
    unfold normalizeUrl
    exact congrArg String.mk (normalizeUrlL_idem_hier x.data p h hh)
  · intro x p h
    unfold normalizeUrl
    exact congrArg String.mk (normalizeUrlL_of_parse x.data p h)

/-- Witness for C7 (amended) at concrete inputs: an unparseable string is
returned unchanged, and a hierarchical URL is rebuilt from scheme,
case-folded host (userinfo and port dropped) and path, idempotently. -/
theorem normalizeUrl_idempotent_amended_witness :
    normalizeUrl "not a url" = "not a url" ∧
    normalizeUrl (normalizeUrl "HTTPS://User@Example.COM:8080/Path/Sub?q=1#frag") =
      normalizeUrl "HTTPS://User@Example.COM:8080/Path/Sub?q=1#frag" ∧
    normalizeUrl "HTTPS://User@Example.COM:8080/Path/Sub?q=1#frag" =
      "https://example.com/Path/Sub" :=
  ⟨(normalizeUrl_idempotent_amended.1 "not a url" (by decide)).1,
    normalizeUrl_idempotent_amended.2.1 "HTTPS://User@Example.COM:8080/Path/Sub?q=1#frag"
      ⟨"https".data, "example.com".data, "/Path/Sub".data⟩ (by decide) (by decide),
    (normalizeUrl_idempotent_amended.2.2.2 "HTTPS://User@Example.COM:8080/Path/Sub?q=1#frag"
      ⟨"https".data, "example.com".data, "/Path/Sub".data⟩ (by decide)).trans (by decide)⟩

/-- **C6 (evaluation at the failing input).** The spec's end-to-end scenario:
a listing page yields 2 classified job links, one normalizing onto an
existing open role (resolved `SKIP`) and one unseen (resolved `NEW_ROLE`).
`runExplorationJob`'s counters double-count `rolesFound` (once per link
inside the classification map and once more for the whole page), so its
metrics report `roles_found = 4` — not 2 as the spec states — while
`rolesSkipped = 1` and `rolesNew = 1` hold; the sibling `runListPhase`
counts `rolesFound = 2` as specified.  A `SKIP` link writes nothing
(`saveDiscovery` returns null), and persisting the collected links stores
exactly one role draft. -/
theorem explorationScenario_metrics :
    explorationFinalize (explorationProcessPage
        [("https://x.com/jobs/a",
          ⟨"r1", "p1", "ro1", some "https://x.com/jobs/a", some "summer analyst",
            some true, some "Summer Analyst"⟩)]
        [] [] [] ⟨0, 0, [], []⟩
        [("https://x.com/jobs/a?src=1", "2026 Summer Analyst"),
          ("https://x.com/jobs/b", "2026 Winter Intern")]) =
      ⟨4, 1, 1, 0, 0⟩ ∧
    (listPhaseProcessPage
        [("https://x.com/jobs/a",
          ⟨"r1", "p1", "ro1", some "https://x.com/jobs/a", some "summer analyst",
            some true, some "Summer Analyst"⟩)]
        [] [] [] ⟨0, 0, [], []⟩
        [("https://x.com/jobs/a?src=1", "2026 Summer Analyst"),
          ("https://x.com/jobs/b", "2026 Winter Intern")]).rolesFound = 2 ∧
    (listPhaseProcessPage
        [("https://x.com/jobs/a",
          ⟨"r1", "p1", "ro1", some "https://x.com/jobs/a", some "summer analyst",
            some true, some "Summer Analyst"⟩)]
        [] [] [] ⟨0, 0, [], []⟩
        [("https://x.com/jobs/a?src=1", "2026 Summer Analyst"),
          ("https://x.com/jobs/b", "2026 Winter Intern")]).rolesSkipped = 1 ∧
    saveDiscovery ⟨[], [], 0⟩
      ⟨"f1", "s1", ⟨"Summer Analyst", none⟩,
        ⟨some "pm1", some "Summer Analyst", none, none, none, "high", "match", false⟩,
        "https://x.com/jobs/a?src=1", RoleAction.SKIP, some "r1"⟩ = (⟨[], [], 0⟩, none) ∧
    ((explorationProcessPage
        [("https://x.com/jobs/a",
          ⟨"r1", "p1", "ro1", some "https://x.com/jobs/a", some "summer analyst",
            some true, some "Summer Analyst"⟩)]
        [] [] [] ⟨0, 0, [], []⟩
        [("https://x.com/jobs/a?src=1", "2026 Summer Analyst"),
          ("https://x.com/jobs/b", "2026 Winter Intern")]).collectedLinks.foldl
        (fun db link => detailSave "f1" "s1" db link ⟨"2026 Winter Intern", some "summer_internship"⟩
          ⟨some "pm1", some "Summer Analyst", none, none, none, "high", "match", false⟩)
        ⟨[], [], 0⟩).roleDrafts.length = 1 := by
  decide

/-- **C8 (counterexample to the claim as stated).** `extractCanonicalName`
neither removes the 4-digit year token `1999` (its year pattern is
`\b20\d{2}\b`) nor replaces the non-alphanumeric underscore (its class
`[^\w\s]` keeps `_`): the claim predicts `"analyst intern"` here, the code
returns `"1999 analyst_intern"`. -/
theorem extractCanonicalName_claim_counterexample :
    extractCanonicalName "1999 Analyst_Intern" = "1999 analyst_intern" ∧
    "1999 analyst_intern" ≠ "analyst intern" := by
  decide

/-- Members of a `dropWhile` are members of the list. -/
theorem mem_dropWhile {α : Type} (q : α → Bool) (l : List α) (c : α)
    (h : c ∈ l.dropWhile q) : c ∈ l := by
  induction l with
  | nil => simp at h
  | cons x xs ih =>
    rw [List.dropWhile_cons] at h
    by_cases hq : q x
    · rw [if_pos hq] at h
      exact List.mem_cons_of_mem x (ih h)
    · rw [if_neg hq] at h
      exact h

/-- Members of a trim are members of the list. -/
theorem mem_trimChars (l : List Char) (c : Char) (h : c ∈ trimChars l) : c ∈ l := by
  unfold trimChars at h
  exact mem_dropWhile _ _ _ (List.mem_reverse.mp (mem_dropWhile _ _ _
    (List.mem_reverse.mp h)))

/-- After the punctuation pass every character is a word or space character. -/
theorem mem_punctToSpace (l : List Char) (c : Char) (h : c ∈ punctToSpace l) :
    isWordChar c = true ∨ isSpaceChar c = true := by
  unfold punctToSpace at h
  rcases List.mem_map.mp h with ⟨y, _, hxy⟩
  by_cases hw : (!isWordChar y && !isSpaceChar y) = true
  · rw [if_pos hw] at hxy
    right
    rw [← hxy]
    decide
  · rw [if_neg hw] at hxy
    rw [← hxy]
    have hw2 : isWordChar y = false → isSpaceChar y = true := by
      simpa [Bool.and_eq_true_iff, Bool.not_eq_true'] using hw
    by_cases hwy : isWordChar y = true
    · exact Or.inl hwy
    · exact Or.inr (hw2 (Bool.of_not_eq_true hwy))

/-- After the whitespace collapse every character is a non-whitespace member
of the input or a plain space. -/
theorem mem_collapseSpacesAux (b : Bool) (l : List Char) (c : Char)
    (h : c ∈ collapseSpacesAux b l) : (c ∈ l ∧ isSpaceChar c = false) ∨ c = ' ' := by
  induction l generalizing b with
  | nil => simp [collapseSpacesAux] at h
  | cons x xs ih =>
    unfold collapseSpacesAux at h
    by_cases hs : isSpaceChar x
    · rw [if_pos hs] at h
      by_cases hb : b
      · rw [if_pos hb] at h
        rcases ih _ h with ⟨hm, hns⟩ | he
        · exact Or.inl ⟨List.mem_cons_of_mem x hm, hns⟩
        · exact Or.inr he
      · rw [if_neg hb] at h
        rcases List.mem_cons.mp h with he | h2
        · exact Or.inr he
        · rcases ih _ h2 with ⟨hm, hns⟩ | he
          · exact Or.inl ⟨List.mem_cons_of_mem x hm, hns⟩
          · exact Or.inr he
    · rw [if_neg hs] at h
      rcases List.mem_cons.mp h with he | h2
      · rw [he]
        exact Or.inl ⟨List.mem_cons_self x xs, Bool.not_eq_true _ ▸ (by simpa using hs)⟩
      · rcases ih _ h2 with ⟨hm, hns⟩ | he
        · exact Or.inl ⟨List.mem_cons_of_mem x hm, hns⟩
        · exact Or.inr he

/-- Lowercasing preserves word characters. -/
theorem isWordChar_toLower (c : Char) (h : isWordChar c = true) :
    isWordChar (toLowerChar c) = true := by
  rcases toLowerChar_cases c with he | ⟨h1, h2, _, _⟩
  · rw [he]; exact h
  · simp [isWordChar, h1, h2]

/-- Every character of a canonical name is a lowercase-stable word character
or a plain space. -/
theorem extractCanonicalName_chars (s : String) (c : Char)
    (h : c ∈ (extractCanonicalName s).data) :
    (isWordChar c = true ∨ c = ' ') ∧ toLowerChar c = c := by
  unfold extractCanonicalName extractCanonicalNameL at h
  by_cases h0 : s.data = []
  · rw [if_pos h0] at h
    simp at h
  · rw [if_neg h0] at h
    simp only [] at h
    rcases List.mem_map.mp h with ⟨y, hy, hxy⟩
    have hy2 := mem_collapseSpacesAux false _ _ (mem_trimChars _ _ hy)
    rcases hy2 with ⟨hy3, hns⟩ | hsp
    · rcases mem_punctToSpace _ _ hy3 with hw | hs
      · exact ⟨Or.inl (hxy ▸ isWordChar_toLower y hw), hxy ▸ toLowerChar_idem y⟩
      · rw [hs] at hns
        cases hns
    · rw [hsp] at hxy
      constructor
      · right
        rw [← hxy]
        decide
      · rw [← hxy]
        decide

/-- **C8 (amended).** `extractCanonicalName` removes word-bounded `20XX` year
tokens, replaces characters that are neither word characters (ASCII letter,
digit, underscore) nor whitespace by spaces, collapses whitespace runs, trims
and lowercases: every character of the result is a lowercase-stable word
character or a single space; empty input yields empty output; and the spec's
examples hold, while `1999` and `_` survive. -/
theorem extractCanonicalName_amended :
    (∀ (s : String) (c : Char), c ∈ (extractCanonicalName s).data →
      (isWordChar c = true ∨ c = ' ') ∧ toLowerChar c = c) ∧
    extractCanonicalName "" = "" ∧
    extractCanonicalName "2026 Summer Analyst - London" = "summer analyst london" ∧
    extractCanonicalName "Investment Banking Summer Analyst (2025) - New York" =
      "investment banking summer analyst new york" ∧
    extractCanonicalName "1999 Analyst_Intern" = "1999 analyst_intern" :=
  ⟨extractCanonicalName_chars, by decide, by decide, by decide, by decide⟩

/-- Witness for C8 (amended) at a concrete input: the character `s` of the
canonicalised spec example is a lowercase-stable word character. -/
theorem extractCanonicalName_amended_witness :
    (isWordChar 's' = true ∨ 's' = ' ') ∧ toLowerChar 's' = 's' :=
  extractCanonicalName_amended.1 "2026 Summer Analyst - London" 's' (by decide)

end Scraper
